import Mathlib

/-!
Verification development for the verso pagination engine
(`src/pagination-engine`), a deterministic screenplay pagination core.

The Rust source is shallowly embedded as executable Lean definitions:

* text is a `List Char`; lengths are counted in characters, which agrees
  with the byte counts the Rust code uses on the 7-bit ASCII reference
  corpus (a separate byte-level model of `break_long_word` is given at
  the end for the non-ASCII behaviour);
* `u8` quantities (`lines_used`, `line_count`, `start_line`, `end_line`)
  are `Nat` with an explicit `% 256` at every arithmetic step, matching
  release-mode wrapping semantics; `u32`/`usize` quantities are plain
  `Nat` (the engine targets wasm32, where a vector of 2^32 elements
  cannot exist, so the `as u32` casts on lengths cannot truncate);
* `f64` only reaches the pagination pass through
  `ElementStyle.line_spacing` (compared against 1.0 and multiplied with
  a ceiling); it is modelled as `Rat`.  The point-size and margin fields
  of the config are renderer-only and never read by the pass, so they
  are omitted from the model;
* the `HashMap<String, ElementPosition>` is modelled as an association
  list with replace-on-insert semantics (`insertPos`), which captures
  the logical key-value content of the map;
* the wall-clock `timing_us` measurement is the one impure input of
  `paginate`; it is passed as an explicit parameter that is stored in
  the stats and used nowhere else.
-/

namespace VersoPagination

/-- Rust `ElementType` (src/types/element.rs). -/
inductive ElementType where
  | sceneHeading
  | action
  | character
  | dialogue
  | parenthetical
  | transition
  | shot
  | dualDialogueLeft
  | dualDialogueRight
  | actBreak
  | pageBreak
  | blankLine
deriving DecidableEq, Repr, Fintype

/-- Rust `DualDialoguePosition` (src/types/element.rs). -/
inductive DualDialoguePosition where
  | left
  | right
deriving DecidableEq, Repr

/-- Rust `Element` (src/types/element.rs).  `ElementId` is a newtype over
`String`; it is inlined as `String` here. -/
structure Element where
  id : String
  element_type : ElementType
  content : List Char
  character_name : Option (List Char)
  dual_dialogue_position : Option DualDialoguePosition
  force_page_break_after : Bool
deriving DecidableEq, Repr

/-- Rust `Element::new`. -/
def Element.new (id : String) (element_type : ElementType) (content : List Char) : Element :=
  { id, element_type, content,
    character_name := none, dual_dialogue_position := none, force_page_break_after := false }

/-- Rust `ElementStyle` (src/types/config.rs).  The renderer-only float
fields `margin_left` / `margin_right` are never read by the pagination
pass and are omitted.  The `u8` fields hold values below 256 in Rust by
typing; the model keeps them as `Nat` and theorems that need the bound
assume it through `ConfigOk`. -/
structure ElementStyle where
  max_chars_per_line : Nat
  space_before : Nat
  space_after : Nat
  line_spacing : Rat
  can_split : Bool
  min_lines_before_split : Nat
  min_lines_after_split : Nat
  keep_with_next : Bool
  keep_with_next_lines : Nat
  force_uppercase : Bool
deriving DecidableEq, Repr

/-- Rust `ElementStyle::default` — identical to the `static DEFAULT`
fallback in `PageConfig::style_for`. -/
def ElementStyle.default : ElementStyle :=
  { max_chars_per_line := 60
    space_before := 1
    space_after := 0
    line_spacing := 1
    can_split := true
    min_lines_before_split := 2
    min_lines_after_split := 2
    keep_with_next := false
    keep_with_next_lines := 0
    force_uppercase := false }

/-- Rust `ElementStyle::default_for` (src/types/config.rs). -/
def ElementStyle.default_for (t : ElementType) : ElementStyle :=
  match t with
  | .sceneHeading =>
      { ElementStyle.default with
          space_before := 2, keep_with_next := true, keep_with_next_lines := 2,
          force_uppercase := true, can_split := false }
  | .action =>
      { ElementStyle.default with
          space_before := 1, can_split := true,
          min_lines_before_split := 2, min_lines_after_split := 2 }
  | .character =>
      { ElementStyle.default with
          max_chars_per_line := 38, space_before := 1, force_uppercase := true,
          keep_with_next := true, keep_with_next_lines := 2, can_split := false }
  | .dialogue =>
      { ElementStyle.default with
          max_chars_per_line := 35, space_before := 0, can_split := true,
          min_lines_before_split := 2, min_lines_after_split := 2 }
  | .parenthetical =>
      { ElementStyle.default with
          max_chars_per_line := 25, space_before := 0, can_split := false,
          keep_with_next := true, keep_with_next_lines := 1 }
  | .transition =>
      { ElementStyle.default with
          max_chars_per_line := 20, space_before := 2, space_after := 1,
          force_uppercase := true, can_split := false }
  | .actBreak =>
      { ElementStyle.default with
          space_before := 4, space_after := 4, force_uppercase := true, can_split := false }
  | .pageBreak =>
      { ElementStyle.default with
          space_before := 0, space_after := 0, can_split := false }
  | _ => ElementStyle.default

/-- Rust `ContinuationStyle` (src/types/config.rs). -/
structure ContinuationStyle where
  more_marker : List Char
  contd_marker : List Char
  enabled : Bool
deriving DecidableEq, Repr

/-- The apostrophe of the CONTD marker, built from its code point. -/
def apostropheChar : Char := Char.ofNat 39

/-- Rust `ContinuationStyle::default`: more marker "(MORE)", contd marker
"(CONT" + apostrophe + "D)", enabled. -/
def ContinuationStyle.default : ContinuationStyle :=
  { more_marker := "(MORE)".toList
    contd_marker := "(CONT".toList ++ apostropheChar :: "D)".toList
    enabled := true }

/-- Rust `OrphanControlConfig` (src/types/config.rs). -/
structure OrphanControlConfig where
  scene_heading_min_following : Nat
  character_min_dialogue_lines : Nat
  dialogue_min_before_split : Nat
  dialogue_min_after_split : Nat
deriving DecidableEq, Repr

/-- Rust `OrphanControlConfig::default`. -/
def OrphanControlConfig.default : OrphanControlConfig :=
  { scene_heading_min_following := 2
    character_min_dialogue_lines := 2
    dialogue_min_before_split := 2
    dialogue_min_after_split := 2 }

/-- Rust `PageConfig` (src/types/config.rs).  `paper_size`, the point
sizes and the margins are renderer-only and never read by the pagination
pass; they are omitted.  The style `HashMap` is modelled as a function
to `Option ElementStyle`. -/
structure PageConfig where
  lines_per_page : Nat
  element_styles : ElementType → Option ElementStyle
  continuation_style : ContinuationStyle
  orphan_control : OrphanControlConfig

/-- Rust `PageConfig::style_for`: map lookup with the static default as
fallback. -/
def PageConfig.style_for (cfg : PageConfig) (t : ElementType) : ElementStyle :=
  (cfg.element_styles t).getD ElementStyle.default

/-- Rust `PageConfig::feature_film` (src/types/config.rs):
`lines_per_page = 55` and the per-type default styles for the ten types
explicitly inserted there (the two dual-dialogue types are *not*
inserted and fall back to the static default). -/
def feature_film : PageConfig :=
  { lines_per_page := 55
    element_styles := fun t =>
      match t with
      | .dualDialogueLeft => none
      | .dualDialogueRight => none
      | t => some (ElementStyle.default_for t)
    continuation_style := ContinuationStyle.default
    orphan_control := OrphanControlConfig.default }

/-! ## Line calculator (src/layout/line_calculator.rs) -/

/-- Rust `char::is_whitespace`: the Unicode White_Space code points. -/
def rust_is_whitespace (c : Char) : Bool :=
  decide (c.toNat ∈ [9, 10, 11, 12, 13, 32, 133, 160, 5760, 8232, 8233, 8239, 8287, 12288])
    || decide (8192 ≤ c.toNat ∧ c.toNat ≤ 8202)

/-- Helper for `split_whitespace`: accumulate the current run of
non-whitespace characters (in reverse). -/
def split_whitespace_aux : List Char → List Char → List (List Char)
  | [], acc => if acc.isEmpty then [] else [acc.reverse]
  | c :: rest, acc =>
      if rust_is_whitespace c then
        if acc.isEmpty then split_whitespace_aux rest []
        else acc.reverse :: split_whitespace_aux rest []
      else split_whitespace_aux rest (c :: acc)

/-- Rust `str::split_whitespace` collected to a vector: the maximal runs
of non-whitespace characters. -/
def split_whitespace (s : List Char) : List (List Char) :=
  split_whitespace_aux s []

/-- The loop of Rust `LineCalculator::break_long_word`, with an explicit
iteration bound so the recursion is structural (and so kernel-reducible
on concrete input).  The Rust loop runs while
`remaining.len() > chars_per_line`; each iteration drops
`chars_per_line ≥ 1` characters, so `fuel = w.length` iterations always
suffice (`wrap_text` returns early for `chars_per_line = 0`, so the
fuel-exhausted case is unreachable from the program). -/
def break_long_word_go (m : Nat) : Nat → List Char → List (List Char)
  | 0, w => if w.isEmpty then [] else [w]
  | fuel + 1, w =>
      if m < w.length then w.take m :: break_long_word_go m fuel (w.drop m)
      else if w.isEmpty then [] else [w]

/-- Rust `LineCalculator::break_long_word`: hard-break a word into chunks
of `chars_per_line` characters (the last chunk may be shorter). -/
def break_long_word (m : Nat) (w : List Char) : List (List Char) :=
  break_long_word_go m w.length w

/-- The greedy first-fit inner loop of `wrap_text` over the words of one
paragraph; `cur` is the Rust `current_line` buffer. -/
def wrap_words (m : Nat) : List (List Char) → List Char → List (List Char)
  | [], cur => if cur.isEmpty then [] else [cur]
  | w :: ws, cur =>
      if cur.isEmpty then
        if m < w.length then break_long_word m w ++ wrap_words m ws []
        else wrap_words m ws w
      else if cur.length + 1 + w.length ≤ m then
        wrap_words m ws (cur ++ ' ' :: w)
      else
        if m < w.length then cur :: (break_long_word m w ++ wrap_words m ws [])
        else cur :: wrap_words m ws w

/-- Rust `LineCalculator::wrap_text`. -/
def wrap_text (text : List Char) (chars_per_line : Nat) : List (List Char) :=
  if chars_per_line = 0 then [text]
  else
    let lines :=
      ((text.splitOn '\n').map fun paragraph =>
        if paragraph.isEmpty then [([] : List Char)]
        else
          let words := split_whitespace paragraph
          if words.isEmpty then [([] : List Char)]
          else wrap_words chars_per_line words []).flatten
    if lines.isEmpty ∧ ¬ text.isEmpty then [[]] else lines

/-- Rust `LineCalculation` (src/layout/line_calculator.rs). -/
structure LineCalculation where
  content_lines : Nat
  space_before : Nat
  space_after : Nat
  total_lines : Nat
  wrapped_lines : List (List Char)
deriving DecidableEq, Repr

/-- Rust `LineCalculator::calculate`. -/
def calculate (cfg : PageConfig) (e : Element) : LineCalculation :=
  let style := cfg.style_for e.element_type
  let wrapped_lines := wrap_text e.content style.max_chars_per_line
  let content_lines := wrapped_lines.length
  let spaced_lines :=
    if 1 < style.line_spacing then ((content_lines : Rat) * style.line_spacing).ceil.toNat
    else content_lines
  { content_lines
    space_before := style.space_before
    space_after := style.space_after
    total_lines := spaced_lines + style.space_after
    wrapped_lines }

/-! ## Continuation manager (src/layout/continuation.rs) -/

/-- Rust `SplitResult`.  The Rust field `contd_prefix` is renamed
`contd_label` in the model. -/
structure SplitResult where
  first_part_lines : Nat
  second_part_lines : Nat
  first_part_content : List (List Char)
  second_part_content : List (List Char)
  more_marker : Option (List Char)
  contd_label : Option (List Char)
deriving DecidableEq, Repr

/-- Rust `char`/`str::to_uppercase` restricted to its ASCII action (the
reference corpus is 7-bit ASCII; the locale-independent Unicode mapping
agrees with this on ASCII). -/
def rust_to_uppercase (s : List Char) : List Char :=
  s.map fun c => if 'a' ≤ c ∧ c ≤ 'z' then Char.ofNat (c.toNat - 32) else c

/-- Rust `ContinuationManager::split_dialogue`. -/
def split_dialogue (cfg : PageConfig) (e : Element) (line_calc : LineCalculation)
    (split_at_line : Nat) : SplitResult :=
  let continuation := cfg.continuation_style
  let actual_split := min split_at_line line_calc.wrapped_lines.length
  let first_part_content := line_calc.wrapped_lines.take actual_split
  let second_part_content := line_calc.wrapped_lines.drop actual_split
  let markers :=
    if continuation.enabled ∧ ¬ second_part_content.isEmpty then
      (some continuation.more_marker,
       e.character_name.map fun name =>
         rust_to_uppercase name ++ ' ' :: continuation.contd_marker)
    else (none, none)
  { first_part_lines := first_part_content.length
    second_part_lines := second_part_content.length
    first_part_content
    second_part_content
    more_marker := markers.1
    contd_label := markers.2 }

/-- Rust `ContinuationManager::split_action`. -/
def split_action (line_calc : LineCalculation) (split_at_line : Nat) : SplitResult :=
  let actual_split := min split_at_line line_calc.wrapped_lines.length
  let first_part_content := line_calc.wrapped_lines.take actual_split
  let second_part_content := line_calc.wrapped_lines.drop actual_split
  { first_part_lines := first_part_content.length
    second_part_lines := second_part_content.length
    first_part_content
    second_part_content
    more_marker := none
    contd_label := none }

/-! ## Page and result types (src/types/page.rs, src/types/result.rs) -/

/-- Rust `PageIdentifier`. -/
inductive PageIdentifier where
  | sequential (n : Nat)
  | inserted (base : Nat) (suffix : Char)
  | omitted (n : Nat)
deriving DecidableEq, Repr

/-- Rust `PageBreakReason`. -/
inductive PageBreakReason where
  | pageFull
  | forced
  | actBreak
  | orphanPrevention
  | dialogueContinuation
deriving DecidableEq, Repr

/-- Rust `LineRange`.  The Rust field `end` is renamed `stop` (`end` is a
Lean keyword). -/
structure LineRange where
  start : Nat
  stop : Nat
deriving DecidableEq, Repr

/-- Rust `PageElement`.  The `u8` fields `start_line` and `line_count`
carry the values the Rust code stores there, i.e. reduced mod 256.  The
Rust field `continuation_prefix` is renamed `continuation_label`. -/
structure PageElement where
  element_id : String
  start_line : Nat
  line_count : Nat
  is_continuation : Bool
  line_range : Option LineRange
  continuation_label : Option (List Char)
deriving DecidableEq, Repr

/-- Rust `Page`.  `lines_used` is a `u8` counter. -/
structure Page where
  identifier : PageIdentifier
  elements : List PageElement
  bottom_continuation : Option (List Char)
  lines_used : Nat
deriving DecidableEq, Repr

/-- Rust `Page::new`. -/
def Page.new (identifier : PageIdentifier) : Page :=
  { identifier, elements := [], bottom_continuation := none, lines_used := 0 }

/-- Rust `ElementPosition` (src/types/result.rs). -/
structure ElementPosition where
  pages : List PageIdentifier
  start_line : Nat
  end_line : Nat
  is_split : Bool
deriving DecidableEq, Repr

/-- Rust `WarningType`. -/
inductive WarningType where
  | elementExceedsPage
  | unpreventableOrphan
  | configurationWarning
  | dualDialogueOverflow
deriving DecidableEq, Repr

/-- Rust `PaginationWarning`. -/
structure PaginationWarning where
  element_id : Option String
  warning_type : WarningType
  message : List Char
deriving DecidableEq, Repr

/-- Rust `PaginationStats`. -/
structure PaginationStats where
  page_count : Nat
  element_count : Nat
  break_count : Nat
  continuation_count : Nat
  timing_us : Nat
deriving DecidableEq, Repr

/-- Rust `PaginationResult`.  `element_positions` is the association-list
model of the `HashMap`. -/
structure PaginationResult where
  pages : List Page
  element_positions : List (String × ElementPosition)
  warnings : List PaginationWarning
  stats : PaginationStats
deriving DecidableEq, Repr

/-! ## Page breaker (src/layout/page_breaker.rs) -/

/-- Rust `BreakDecision`. -/
inductive BreakDecision where
  | fits
  | breakBefore
  | splitAt (line : Nat)
deriving DecidableEq, Repr

/-- Rust `PaginationState`. -/
structure PaginationState where
  pages : List Page
  current_page : Page
  page_number : Nat
  element_positions : List (String × ElementPosition)
  warnings : List PaginationWarning
  break_count : Nat
  continuation_count : Nat
deriving Repr

/-- Rust `PaginationState::new`. -/
def PaginationState.new : PaginationState :=
  { pages := []
    current_page := Page.new (PageIdentifier.sequential 1)
    page_number := 1
    element_positions := []
    warnings := []
    break_count := 0
    continuation_count := 0 }

/-- Rust `PaginationState::lines_remaining`: `u8` saturating subtraction,
which is exactly `Nat` subtraction. -/
def PaginationState.lines_remaining (s : PaginationState) (lines_per_page : Nat) : Nat :=
  lines_per_page - s.current_page.lines_used

/-- Rust `PaginationState::at_page_start`. -/
def PaginationState.at_page_start (s : PaginationState) : Bool :=
  s.current_page.lines_used == 0

/-- Rust `PaginationState::end_page`: push the current page and start a
fresh `Sequential(page_number + 1)` page.  The reason is recorded
nowhere in the Rust code either. -/
def PaginationState.end_page (s : PaginationState) (_reason : PageBreakReason) :
    PaginationState :=
  { s with
      pages := s.pages ++ [s.current_page]
      current_page := Page.new (PageIdentifier.sequential (s.page_number + 1))
      page_number := s.page_number + 1
      break_count := s.break_count + 1 }

/-- `HashMap::insert` on the association-list model: replace the entry
for the key if present, else append. -/
def insertPos (m : List (String × ElementPosition)) (k : String) (v : ElementPosition) :
    List (String × ElementPosition) :=
  match m with
  | [] => [(k, v)]
  | (k', v') :: rest => if k' = k then (k, v) :: rest else (k', v') :: insertPos rest k v

/-- Rust `PaginationState::add_element`.  `start_line`, `line_count`,
`end_line` and the `lines_used` update are `u8` arithmetic (wrapping
casts and additions, modelled with `% 256`); the `- 1` in `end_line` is
a wrapping `u8` subtraction. -/
def PaginationState.add_element (s : PaginationState) (e : Element)
    (line_calc : LineCalculation) (at_page_start : Bool) : PaginationState :=
  let space_before := if at_page_start then 0 else line_calc.space_before
  let start_line := (s.current_page.lines_used + space_before + 1) % 256
  let page_element : PageElement :=
    { element_id := e.id
      start_line
      line_count := line_calc.content_lines % 256
      is_continuation := false
      line_range := none
      continuation_label := none }
  { s with
      current_page :=
        { s.current_page with
            elements := s.current_page.elements ++ [page_element]
            lines_used :=
              (s.current_page.lines_used +
                (space_before + line_calc.total_lines % 256) % 256) % 256 }
      element_positions :=
        insertPos s.element_positions e.id
          { pages := [s.current_page.identifier]
            start_line
            end_line := (start_line + line_calc.content_lines % 256 + 255) % 256
            is_split := false } }

/-- Rust `PaginationState::add_split_element_first_part`. -/
def PaginationState.add_split_element_first_part (s : PaginationState) (e : Element)
    (first_lines : Nat) (more_marker : Option (List Char)) (at_page_start : Bool)
    (space_before : Nat) : PaginationState :=
  let actual_space := if at_page_start then 0 else space_before
  let start_line := (s.current_page.lines_used + actual_space + 1) % 256
  let page_element : PageElement :=
    { element_id := e.id
      start_line
      line_count := first_lines % 256
      is_continuation := false
      line_range := some { start := 0, stop := first_lines }
      continuation_label := none }
  let lines_used :=
    (s.current_page.lines_used + (actual_space + first_lines % 256) % 256) % 256
  if more_marker.isSome then
    { s with
        current_page :=
          { s.current_page with
              elements := s.current_page.elements ++ [page_element]
              bottom_continuation := more_marker
              lines_used := (lines_used + 1) % 256 }
        continuation_count := s.continuation_count + 1 }
  else
    { s with
        current_page :=
          { s.current_page with
              elements := s.current_page.elements ++ [page_element]
              lines_used } }

/-- Rust `PaginationState::add_split_element_second_part`.  Note that the
`lines_used` of the (always fresh) page is assigned, not incremented. -/
def PaginationState.add_split_element_second_part (s : PaginationState) (e : Element)
    (first_lines second_lines : Nat) (contd_label : Option (List Char)) : PaginationState :=
  let extra_lines := if contd_label.isSome then 1 else 0
  let page_element : PageElement :=
    { element_id := e.id
      start_line := 1 + extra_lines
      line_count := second_lines % 256
      is_continuation := true
      line_range := some { start := first_lines, stop := first_lines + second_lines }
      continuation_label := contd_label }
  { s with
      current_page :=
        { s.current_page with
            elements := s.current_page.elements ++ [page_element]
            lines_used := (extra_lines + second_lines % 256) % 256 } }

/-- Rust `PaginationState::record_split_position`. -/
def PaginationState.record_split_position (s : PaginationState) (element_id : String)
    (first_page second_page : PageIdentifier) (start_line end_line : Nat) :
    PaginationState :=
  { s with
      element_positions :=
        insertPos s.element_positions element_id
          { pages := [first_page, second_page], start_line, end_line, is_split := true } }

/-- Rust `PaginationState::add_warning`. -/
def PaginationState.add_warning (s : PaginationState) (element_id : Option String)
    (warning_type : WarningType) (message : List Char) : PaginationState :=
  { s with warnings := s.warnings ++ [{ element_id, warning_type, message }] }

/-- Rust `PaginationState::finalize`. -/
def PaginationState.finalize (s : PaginationState) (timing_us : Nat)
    (element_count : Nat) : PaginationResult :=
  let pages :=
    if s.current_page.elements.isEmpty then s.pages else s.pages ++ [s.current_page]
  { pages
    element_positions := s.element_positions
    warnings := s.warnings
    stats :=
      { page_count := pages.length
        element_count
        break_count := s.break_count
        continuation_count := s.continuation_count
        timing_us } }

/-- Rust `estimate_following_lines`, the sum over `upcoming[1..]` once
the first element has been taken: subsequent elements count
`space_before + content_lines`. -/
def following_sum (cfg : PageConfig) : List Element → Nat
  | [] => 0
  | e :: rest =>
      let lines := calculate cfg e
      lines.space_before + lines.content_lines + following_sum cfg rest

/-- Rust `estimate_following_lines` (src/layout/page_breaker.rs): the
first following element counts only its `content_lines`, the rest count
`space_before + content_lines`. -/
def estimate_following_lines (cfg : PageConfig) (upcoming : List Element) (count : Nat) :
    Nat :=
  match upcoming.take count with
  | [] => 0
  | e :: rest => (calculate cfg e).content_lines + following_sum cfg rest

/-- Rust `decide_break` (src/layout/page_breaker.rs).  `upcoming` is the
slice `&elements[idx..]`, i.e. it starts with the element itself.  All
`u32` saturating subtractions are `Nat` subtraction. -/
def decide_break (cfg : PageConfig) (e : Element) (lines : LineCalculation)
    (total_needed remaining : Nat) (upcoming : List Element) : BreakDecision :=
  if total_needed ≤ remaining then
    let style := cfg.style_for e.element_type
    if style.keep_with_next ∧ 1 < upcoming.length then
      let following_lines :=
        estimate_following_lines cfg upcoming.tail style.keep_with_next_lines
      if remaining < total_needed + following_lines then BreakDecision.breakBefore
      else BreakDecision.fits
    else BreakDecision.fits
  else
    let style := cfg.style_for e.element_type
    let orphan := cfg.orphan_control
    match e.element_type with
    | .sceneHeading => BreakDecision.breakBefore
    | .character => BreakDecision.breakBefore
    | .parenthetical => BreakDecision.breakBefore
    | .dialogue =>
        if ¬ style.can_split then BreakDecision.breakBefore
        else
          let min_before := orphan.dialogue_min_before_split
          let min_after := orphan.dialogue_min_after_split
          let available_for_content := remaining - lines.space_before
          if min_before ≤ available_for_content then
            let remaining_after_split := lines.content_lines - available_for_content
            if min_after ≤ remaining_after_split then
              let split_line := available_for_content - 1
              if min_before ≤ split_line then BreakDecision.splitAt split_line
              else BreakDecision.breakBefore
            else BreakDecision.breakBefore
          else BreakDecision.breakBefore
    | .action =>
        if ¬ style.can_split then BreakDecision.breakBefore
        else
          let min_before := style.min_lines_before_split
          let min_after := style.min_lines_after_split
          let available_for_content := remaining - lines.space_before
          if min_before ≤ available_for_content then
            let remaining_after_split := lines.content_lines - available_for_content
            if min_after ≤ remaining_after_split then
              BreakDecision.splitAt available_for_content
            else BreakDecision.breakBefore
          else BreakDecision.breakBefore
    | .transition => BreakDecision.breakBefore
    | .actBreak => BreakDecision.breakBefore
    | _ => BreakDecision.breakBefore

/-- The warning message built by `format!` in `paginate`. -/
def warn_message (total_lines lines_per_page : Nat) : List Char :=
  ("Element requires " ++ toString total_lines ++ " lines but page only has "
    ++ toString lines_per_page ++ " lines").toList

/-- Application of a `BreakDecision` to the state: the body of the
`match decision` in Rust `paginate`. -/
def applyDecision (cfg : PageConfig) (e : Element) (lines : LineCalculation)
    (space_before : Nat) (s : PaginationState) : BreakDecision → PaginationState
  | .fits => s.add_element e lines s.at_page_start
  | .breakBefore =>
      let s' := if s.at_page_start then s else s.end_page PageBreakReason.orphanPrevention
      s'.add_element e lines true
  | .splitAt line =>
      let at_page_start := s.at_page_start
      let split :=
        if e.element_type = ElementType.dialogue then split_dialogue cfg e lines line
        else split_action lines line
      if 0 < split.first_part_lines ∧ 0 < split.second_part_lines then
        let first_page := s.current_page.identifier
        let start_line := (s.current_page.lines_used + space_before + 1) % 256
        let sA :=
          s.add_split_element_first_part e split.first_part_lines split.more_marker
            at_page_start lines.space_before
        let sB := sA.end_page PageBreakReason.dialogueContinuation
        let second_page := sB.current_page.identifier
        let sC :=
          sB.add_split_element_second_part e split.first_part_lines
            split.second_part_lines split.contd_label
        sC.record_split_position e.id first_page second_page start_line
          (split.second_part_lines % 256)
      else
        let s' := if s.at_page_start then s else s.end_page PageBreakReason.orphanPrevention
        s'.add_element e lines true

/-- One iteration of the `for (idx, element)` loop in Rust `paginate`;
`rest` is the part of the input after `e` (so the Rust slice
`&elements[idx..]` is `e :: rest`). -/
def stepElem (cfg : PageConfig) (e : Element) (rest : List Element)
    (s : PaginationState) : PaginationState :=
  if e.element_type = ElementType.pageBreak then
    if s.at_page_start then s else s.end_page PageBreakReason.forced
  else
    let lines := calculate cfg e
    let space_before := if s.at_page_start then 0 else lines.space_before
    let total_needed := space_before + lines.total_lines
    let remaining := s.lines_remaining cfg.lines_per_page
    let decision := decide_break cfg e lines total_needed remaining (e :: rest)
    let s1 := applyDecision cfg e lines space_before s decision
    let s2 :=
      if e.force_page_break_after ∧ ¬ s1.at_page_start then
        s1.end_page PageBreakReason.forced
      else s1
    if cfg.lines_per_page < lines.total_lines then
      s2.add_warning (some e.id) WarningType.elementExceedsPage
        (warn_message lines.total_lines cfg.lines_per_page)
    else s2

/-- The element loop of Rust `paginate`. -/
def runElems (cfg : PageConfig) : List Element → PaginationState → PaginationState
  | [], s => s
  | e :: rest, s => runElems cfg rest (stepElem cfg e rest s)

/-- Rust `paginate` (src/layout/page_breaker.rs).  The elapsed-time
measurement is the only impure input; it is passed in as `timing_us` and
is stored in the stats, unused anywhere else. -/
def paginate (elements : List Element) (cfg : PageConfig) (timing_us : Nat) :
    PaginationResult :=
  (runElems cfg elements PaginationState.new).finalize timing_us elements.length

/-! ## Byte-level model of `break_long_word`

The Rust `break_long_word` operates on `&str`: `word.len()` is a count
of UTF-8 *bytes* and `&remaining[..chars_per_line]` is a *byte* slice.
Rust string slicing panics when the index is not a character boundary,
so the function is partial on non-ASCII input.  This byte-level model
makes the partiality explicit with `Except`; the character-level
`break_long_word` above coincides with it on ASCII text (1 char = 1
byte, every index a boundary). -/

/-- UTF-8 encoding of one scalar value. -/
def utf8EncodeChar (c : Char) : List Nat :=
  let n := c.toNat
  if n < 128 then [n]
  else if n < 2048 then [192 + n / 64, 128 + n % 64]
  else if n < 65536 then [224 + n / 4096, 128 + (n / 64) % 64, 128 + n % 64]
  else [240 + n / 262144, 128 + (n / 4096) % 64, 128 + (n / 64) % 64, 128 + n % 64]

/-- UTF-8 encoding of a string, as Rust `str::as_bytes`. -/
def utf8Encode (s : List Char) : List Nat :=
  (s.map utf8EncodeChar).flatten

/-- A UTF-8 continuation byte (`0b10xxxxxx`). -/
def isUtf8ContByte (b : Nat) : Bool :=
  decide (128 ≤ b ∧ b < 192)

/-- Rust `str::is_char_boundary`: index 0, the length, or a
non-continuation byte. -/
def isCharBoundary (bs : List Nat) (i : Nat) : Bool :=
  decide (i = 0) || decide (i = bs.length)
    || (decide (i < bs.length) && ! isUtf8ContByte (bs.getD i 0))

/-- Loop of the byte-level `break_long_word`, with the same explicit
iteration bound as `break_long_word_go`: each iteration slices
`remaining[..chars_per_line]`, which panics (modelled as
`Except.error`) when byte index `chars_per_line` is not a character
boundary of the remaining suffix. -/
def break_long_word_bytes_go (m : Nat) : Nat → List Nat →
    Except (List Char) (List (List Nat))
  | 0, w => if w.isEmpty then .ok [] else .ok [w]
  | fuel + 1, w =>
      if m < w.length then
        if isCharBoundary w m then
          match break_long_word_bytes_go m fuel (w.drop m) with
          | .ok ls => .ok (w.take m :: ls)
          | .error msg => .error msg
        else .error ("byte index is not a char boundary".toList)
      else if w.isEmpty then .ok [] else .ok [w]

/-- Byte-level Rust `break_long_word` on the UTF-8 bytes of the word. -/
def break_long_word_bytes (m : Nat) (w : List Nat) : Except (List Char) (List (List Nat)) :=
  break_long_word_bytes_go m w.length w

/-! ## Helper definitions used in the claim statements -/

/-- Look an element up by id (the first match, as a `HashMap` keyed by
unique ids would). -/
def findElem (elements : List Element) (k : String) : Option Element :=
  elements.find? fun e => e.id == k

/-- Number of entries of the association-list map with the given key. -/
def countKey (m : List (String × ElementPosition)) (k : String) : Nat :=
  (m.filter fun p => decide (p.1 = k)).length

/-- Ids of the non-PageBreak elements of the input. -/
def nonPBids (elements : List Element) : List String :=
  (elements.filter fun e => decide (e.element_type ≠ ElementType.pageBreak)).map (·.id)

/-- The `u8`-typed style fields are below 256 in Rust by typing; the
`Nat` model records the one bound the ledger arguments need. -/
def ConfigOk (cfg : PageConfig) : Prop :=
  ∀ t : ElementType, (cfg.style_for t).space_before < 256

instance (cfg : PageConfig) : Decidable (ConfigOk cfg) :=
  inferInstanceAs (Decidable (∀ t : ElementType, (cfg.style_for t).space_before < 256))

/-- The number of lines a placement contributes to `lines_used` beyond
its consumed space-before: the length of its line range for a split
placement, the element's `total_lines` (spacing-adjusted content plus
space-after) for an unsplit one. -/
def placeShare (cfg : PageConfig) (elements : List Element) (pe : PageElement) : Nat :=
  match pe.line_range with
  | some r => r.stop - r.start
  | none =>
      match findElem elements pe.element_id with
      | some e => (calculate cfg e).total_lines
      | none => 0

/-- The space-before consumed by a placement, recovered from its
recorded `start_line` and the running `u8` line counter `acc` (< 256):
`start_line = (acc + space + 1) % 256`, so the consumed space is
`start_line - acc - 1` mod 256. -/
def reconSpace (acc start_line : Nat) : Nat :=
  (start_line + 512 - acc - 1) % 256

/-- One placement applied to the running `u8` line counter: consumed
space-before plus the placement's share, in wrapping `u8` arithmetic. -/
def ledgerStep (cfg : PageConfig) (elements : List Element) (acc : Nat)
    (pe : PageElement) : Nat :=
  (acc + reconSpace acc pe.start_line + placeShare cfg elements pe % 256) % 256

/-- Folding the ledger over the placements of a page. -/
def ledgerFold (cfg : PageConfig) (elements : List Element) (pes : List PageElement)
    (acc : Nat) : Nat :=
  pes.foldl (ledgerStep cfg elements) acc

/-- The per-placement sum claimed by C3 (spec invariant 1), read off the
result exactly as the claim words it: space-before consumed (recovered
from `start_line` as in `reconSpace`) plus the recorded `line_count`. -/
def c3ClaimStep (acc : Nat) (pe : PageElement) : Nat :=
  acc + reconSpace acc pe.start_line + pe.line_count

/-- The C3 claim's page sum: placements' (space-before consumed +
line_count), plus 1 if a bottom continuation is present. -/
def c3ClaimSum (pg : Page) : Nat :=
  pg.elements.foldl c3ClaimStep 0 +
    (if pg.bottom_continuation.isSome then 1 else 0)

/-! ## Concrete inputs used by counterexamples and witnesses -/

/-- A one-line Transition element (style has `space_after = 1` under the
feature-film defaults). -/
def exTransition : Element := Element.new "t" ElementType.transition "CUT TO:".toList

/-- A one-line Action element. -/
def exAction : Element := Element.new "a1" ElementType.action "Hello.".toList

/-- A PageBreak element. -/
def exPageBreak : Element := Element.new "p2" ElementType.pageBreak []

/-- A PageBreak element used on its own. -/
def exPageBreakOnly : Element := Element.new "p1" ElementType.pageBreak []

/-- A style wrapping at one character per line, splittable, no spacing:
every character of content is one wrapped line. -/
def smallStyle : ElementStyle :=
  { ElementStyle.default with max_chars_per_line := 1, space_before := 0, can_split := true }

/-- A five-line page in which `smallStyle` applies to every type. -/
def cfgSmall : PageConfig :=
  { lines_per_page := 5
    element_styles := fun _ => some smallStyle
    continuation_style := ContinuationStyle.default
    orphan_control := OrphanControlConfig.default }

/-- A Dialogue of 8 content lines under `cfgSmall`, with no character
name. -/
def exDialogue8 : Element := Element.new "d8" ElementType.dialogue (List.replicate 8 'a')

/-- A Dialogue of 8 content lines under `cfgSmall`, named JOHN. -/
def exDialogue8Named : Element :=
  { Element.new "dn" ElementType.dialogue (List.replicate 8 'a') with
      character_name := some "JOHN".toList }

/-- A ten-line page for the 266-line split. -/
def cfgSplitBig : PageConfig := { cfgSmall with lines_per_page := 10 }

/-- A Dialogue of 266 content lines under `cfgSplitBig`: its second
split half has 257 lines, more than fit in the `u8` `line_count`. -/
def exDialogue266 : Element :=
  Element.new "d266" ElementType.dialogue (List.replicate 266 'a')

/-! ## Claim theorems -/

/-- C1: for every element list and every config, two invocations of
`paginate` with equal inputs produce equal outputs — equal pages,
element_positions, warnings, and stats fields other than `timing_us`
(the wall-clock reading, the one impure input, is an explicit parameter
of the model and reaches only `stats.timing_us`). -/
theorem c1_paginate_deterministic (elements : List Element) (cfg : PageConfig)
    (t₁ t₂ : Nat) :
    (paginate elements cfg t₁).pages = (paginate elements cfg t₂).pages ∧
    (paginate elements cfg t₁).element_positions =
      (paginate elements cfg t₂).element_positions ∧
    (paginate elements cfg t₁).warnings = (paginate elements cfg t₂).warnings ∧
    (paginate elements cfg t₁).stats.page_count =
      (paginate elements cfg t₂).stats.page_count ∧
    (paginate elements cfg t₁).stats.element_count =
      (paginate elements cfg t₂).stats.element_count ∧
    (paginate elements cfg t₁).stats.break_count =
      (paginate elements cfg t₂).stats.break_count ∧
    (paginate elements cfg t₁).stats.continuation_count =
      (paginate elements cfg t₂).stats.continuation_count :=
  ⟨rfl, rfl, rfl, rfl, rfl, rfl, rfl⟩

/-- C2 (code bug witness): the feature-film Dialogue style wraps at 35
characters, a word of 18 copies of U+00E9 occupies 36 UTF-8 bytes, so
Rust `break_long_word` slices it at byte index 35 — which falls inside
a two-byte code point and panics (`Except.error` in the byte model).
The claim that `paginate` is total and handles non-ASCII text in-band
is therefore right about the intent but wrong about the code. -/
theorem c2_break_long_word_panics_on_non_ascii :
    (feature_film.style_for ElementType.dialogue).max_chars_per_line = 35 ∧
    (utf8Encode (List.replicate 18 (Char.ofNat 233))).length = 36 ∧
    break_long_word_bytes 35 (utf8Encode (List.replicate 18 (Char.ofNat 233))) =
      Except.error ("byte index is not a char boundary".toList) :=
  ⟨by decide, by decide, rfl⟩

/-- C3 counterexample: a single feature-film Transition produces one
page with `lines_used = 2` (its style has `space_after = 1`), while the
claim's sum — space-before consumed plus `line_count`, plus one for a
bottom continuation — is 1.  The claimed equality fails on every
element whose style has positive `space_after`. -/
theorem c3_counterexample :
    ((paginate [exTransition] feature_film 0).pages.map fun pg =>
      (pg.lines_used, c3ClaimSum pg)) = [(2, 1)] := by decide

set_option maxRecDepth 100000 in
/-- C4 counterexample: the Dialogue `exDialogue266` (266 content lines)
splits under `cfgSplitBig` into halves of 9 and 257 lines; the recorded
`line_count`s are the `u8` truncations 9 and 1, which sum to 10, not to
the element's 266 content lines.  The `LineRange`s, kept in `u32`, do
tile `[0, 266)` exactly. -/
theorem c4_counterexample :
    (calculate cfgSplitBig exDialogue266).content_lines = 266 ∧
    ((paginate [exDialogue266] cfgSplitBig 0).pages.map fun pg =>
      pg.elements.map fun pe => (pe.element_id, pe.line_count, pe.line_range)) =
      [[("d266", 9, some { start := 0, stop := 9 })],
       [("d266", 1, some { start := 9, stop := 266 })]] := by decide

/-- C7 counterexample: an input consisting of one PageBreak element
yields an empty `element_positions` map — the PageBreak branch of
`paginate` skips position recording entirely, so the claimed entry for
its id does not exist. -/
theorem c7_counterexample :
    exPageBreakOnly.element_type = ElementType.pageBreak ∧
    (paginate [exPageBreakOnly] feature_film 0).element_positions = [] ∧
    countKey (paginate [exPageBreakOnly] feature_film 0).element_positions
      exPageBreakOnly.id = 0 := by decide

/-- C8 counterexample: `exDialogue8` carries no `character_name`, yet
its split under `cfgSmall` sets the first page's `bottom_continuation`
to the MORE marker — the claimed "only if the element carried a
character_name" direction fails (the code conditions the marker only on
continuation being enabled and the second half being non-empty). -/
theorem c8_counterexample :
    exDialogue8.character_name = none ∧
    ((paginate [exDialogue8] cfgSmall 0).pages.map fun pg =>
      pg.bottom_continuation) = [some "(MORE)".toList, none] := by decide

/-- C9 counterexample: `[exAction]` fills one line of a 55-line page
(the page is far from full), and appending a trailing PageBreak leaves
`page_count` at 1 — the claim predicts that removing the trailing
PageBreak would reduce the count by one (from 1 to 0), but the trailing
empty page is never emitted (`finalize` drops a current page without
placements). -/
theorem c9_counterexample :
    (paginate [exAction] feature_film 0).pages.map (·.lines_used) = [1] ∧
    (paginate [exAction, exPageBreak] feature_film 0).stats.page_count = 1 ∧
    (paginate [exAction] feature_film 0).stats.page_count = 1 ∧
    (paginate [exAction] feature_film 0).stats.page_count ≠
      (paginate [exAction, exPageBreak] feature_film 0).stats.page_count - 1 := by
  refine ⟨by decide, by decide, by decide, by decide⟩

/-- C5: for every Dialogue element that does not fit
(`total_needed > remaining`) with a splittable style, `decide_break`
returns `SplitAt (avail - 1)` — where `avail` is the saturating
difference `remaining - space_before` — exactly when
`avail ≥ dialogue_min_before_split`,
`content_lines - avail ≥ dialogue_min_after_split` (saturating, as all
`Nat` subtraction is) and `avail - 1 ≥ dialogue_min_before_split`;
otherwise it returns `BreakBefore`. -/
theorem c5_decide_break_dialogue_split (cfg : PageConfig) (e : Element)
    (lines : LineCalculation) (total_needed remaining : Nat) (upcoming : List Element)
    (htype : e.element_type = ElementType.dialogue)
    (hsplit : (cfg.style_for ElementType.dialogue).can_split = true)
    (hnofit : remaining < total_needed) :
    (decide_break cfg e lines total_needed remaining upcoming =
        BreakDecision.splitAt (remaining - lines.space_before - 1) ↔
      (cfg.orphan_control.dialogue_min_before_split ≤ remaining - lines.space_before ∧
        cfg.orphan_control.dialogue_min_after_split ≤
          lines.content_lines - (remaining - lines.space_before) ∧
        cfg.orphan_control.dialogue_min_before_split ≤ remaining - lines.space_before - 1)) ∧
    (¬ (cfg.orphan_control.dialogue_min_before_split ≤ remaining - lines.space_before ∧
        cfg.orphan_control.dialogue_min_after_split ≤
          lines.content_lines - (remaining - lines.space_before) ∧
        cfg.orphan_control.dialogue_min_before_split ≤ remaining - lines.space_before - 1) →
      decide_break cfg e lines total_needed remaining upcoming =
        BreakDecision.breakBefore) := by
  unfold decide_break
  rw [if_neg (by omega), htype]
  dsimp only
  rw [hsplit]
  rw [if_neg (by simp)]
  constructor
  · constructor
    · intro hres
      by_cases h1 : cfg.orphan_control.dialogue_min_before_split ≤ remaining - lines.space_before
      · rw [if_pos h1] at hres
        by_cases h2 : cfg.orphan_control.dialogue_min_after_split ≤
            lines.content_lines - (remaining - lines.space_before)
        · rw [if_pos h2] at hres
          by_cases h3 : cfg.orphan_control.dialogue_min_before_split ≤
              remaining - lines.space_before - 1
          · exact ⟨h1, h2, h3⟩
          · rw [if_neg h3] at hres
            exact absurd hres (by simp)
        · rw [if_neg h2] at hres
          exact absurd hres (by simp)
      · rw [if_neg h1] at hres
        exact absurd hres (by simp)
    · rintro ⟨h1, h2, h3⟩
      rw [if_pos h1, if_pos h2, if_pos h3]
  · intro hc
    by_cases h1 : cfg.orphan_control.dialogue_min_before_split ≤ remaining - lines.space_before
    · rw [if_pos h1]
      by_cases h2 : cfg.orphan_control.dialogue_min_after_split ≤
          lines.content_lines - (remaining - lines.space_before)
      · rw [if_pos h2]
        by_cases h3 : cfg.orphan_control.dialogue_min_before_split ≤
            remaining - lines.space_before - 1
        · exact absurd ⟨h1, h2, h3⟩ hc
        · rw [if_neg h3]
      · rw [if_neg h2]
    · rw [if_neg h1]

/-- C5 witness: a Dialogue of 8 content lines with 5 lines remaining
under the feature-film orphan minima (2/2) yields `SplitAt 4`. -/
theorem c5_witness :
    exDialogue8.element_type = ElementType.dialogue ∧
    (feature_film.style_for ElementType.dialogue).can_split = true ∧
    (5 : Nat) < 8 ∧
    decide_break feature_film exDialogue8 (calculate cfgSmall exDialogue8) 8 5 [] =
      BreakDecision.splitAt 4 :=
  ⟨by decide, by decide, by decide,
    (c5_decide_break_dialogue_split feature_film exDialogue8
        (calculate cfgSmall exDialogue8) 8 5 [] (by decide) (by decide) (by decide)).1.mpr
      (by decide)⟩

/-- C6: `split_dialogue` emits the config's MORE marker, and — when the
element has a `character_name` — the CONTD label
`uppercased(name) ++ " " ++ contd_marker`, exactly when continuation is
enabled and the second part is non-empty; when the second part is empty
it emits no markers; `split_action` never emits markers. -/
theorem c6_split_markers (cfg : PageConfig) (e : Element) (lc : LineCalculation)
    (k : Nat) :
    ((split_dialogue cfg e lc k).more_marker =
      if cfg.continuation_style.enabled = true ∧
          (split_dialogue cfg e lc k).second_part_lines ≠ 0
      then some cfg.continuation_style.more_marker else none) ∧
    ((split_dialogue cfg e lc k).contd_label =
      if cfg.continuation_style.enabled = true ∧
          (split_dialogue cfg e lc k).second_part_lines ≠ 0
      then e.character_name.map fun name =>
        rust_to_uppercase name ++ ' ' :: cfg.continuation_style.contd_marker
      else none) ∧
    (split_action lc k).more_marker = none ∧
    (split_action lc k).contd_label = none := by
  unfold split_dialogue split_action
  dsimp only
  have hcond : (cfg.continuation_style.enabled = true ∧
      ¬ (lc.wrapped_lines.drop (min k lc.wrapped_lines.length)).isEmpty = true) ↔
      (cfg.continuation_style.enabled = true ∧
        (lc.wrapped_lines.drop (min k lc.wrapped_lines.length)).length ≠ 0) := by
    simp only [List.isEmpty_iff, List.drop_eq_nil_iff, List.length_drop, not_le]
    constructor
    · rintro ⟨h1, h2⟩
      exact ⟨h1, by omega⟩
    · rintro ⟨h1, h2⟩
      exact ⟨h1, by omega⟩
  by_cases h : cfg.continuation_style.enabled = true ∧
      (lc.wrapped_lines.drop (min k lc.wrapped_lines.length)).length ≠ 0
  · rw [if_pos (hcond.mpr h)]
    dsimp only
    rw [if_pos h, if_pos h]
    exact ⟨rfl, rfl, rfl, rfl⟩
  · rw [if_neg (fun hh => h (hcond.mp hh))]
    dsimp only
    rw [if_neg h, if_neg h]
    exact ⟨rfl, rfl, rfl, rfl⟩


theorem countKey_insertPos_self (m : List (String × ElementPosition)) (k : String)
    (v : ElementPosition) :
    countKey (insertPos m k v) k = if countKey m k = 0 then 1 else countKey m k := by
  induction m with
  | nil => simp [insertPos, countKey]
  | cons p rest ih =>
      by_cases hk : p.1 = k
      · simp [insertPos, countKey, hk]
      · simp only [insertPos, hk, if_false, countKey, List.filter_cons, decide_eq_true_eq,
          if_neg hk]
        exact ih

theorem countKey_insertPos_ne (m : List (String × ElementPosition)) (k : String)
    (v : ElementPosition) (k' : String) (h : k' ≠ k) :
    countKey (insertPos m k v) k' = countKey m k' := by
  induction m with
  | nil => simp [insertPos, countKey, Ne.symm h]
  | cons p rest ih =>
      by_cases hk : p.1 = k
      · have h2 : (decide (p.1 = k')) = false := by
          simp only [decide_eq_false_iff_not]
          rw [hk]
          exact Ne.symm h
        simp only [insertPos]
        rw [if_pos hk]
        simp only [countKey, List.filter_cons, h2, decide_eq_true_eq,
          if_neg (Ne.symm h), Bool.false_eq_true, if_false]
      · simp only [insertPos]
        rw [if_neg hk]
        simp only [countKey, List.filter_cons, decide_eq_true_eq]
        by_cases hk' : p.1 = k'
        · simp only [if_pos hk', List.length_cons]
          exact congrArg (· + 1) ih
        · simp only [if_neg hk']
          exact ih

theorem mem_nonPBids_append (l : List Element) (e : Element) (k : String) :
    k ∈ nonPBids (l ++ [e]) ↔
      k ∈ nonPBids l ∨ (e.element_type ≠ ElementType.pageBreak ∧ k = e.id) := by
  by_cases hpb : e.element_type = ElementType.pageBreak <;>
    simp [nonPBids, List.filter_append, List.filter_cons, hpb, and_comm]

/-- The hypothesis-free state invariant: sequential page identifiers,
non-empty finalized pages, a zero line counter on an empty current
page, and the position-map key counts for the processed prefix. -/
structure BaseOk (processed : List Element) (s : PaginationState) : Prop where
  pagesLen : s.page_number = s.pages.length + 1
  pagesId : ∀ i (hi : i < s.pages.length),
    (s.pages[i]).identifier = PageIdentifier.sequential (i + 1)
  currId : s.current_page.identifier = PageIdentifier.sequential s.page_number
  pagesNe : ∀ pg ∈ s.pages, pg.elements ≠ []
  currNe : s.current_page.elements = [] → s.current_page.lines_used = 0
  posCount : ∀ k : String,
    countKey s.element_positions k = if k ∈ nonPBids processed then 1 else 0

theorem baseOk_init : BaseOk [] PaginationState.new := by
  refine ⟨rfl, ?_, rfl, ?_, ?_, ?_⟩
  · intro i hi
    simp [PaginationState.new] at hi
  · intro pg hpg
    simp [PaginationState.new] at hpg
  · intro _
    rfl
  · intro k
    simp [PaginationState.new, countKey, nonPBids]

theorem baseOk_pb_extend (processed : List Element) (e : Element) (s : PaginationState)
    (hpb : e.element_type = ElementType.pageBreak) (h : BaseOk processed s) :
    BaseOk (processed ++ [e]) s := by
  refine ⟨h.pagesLen, h.pagesId, h.currId, h.pagesNe, h.currNe, ?_⟩
  intro k
  rw [h.posCount k]
  have hiff : (k ∈ nonPBids (processed ++ [e])) ↔ k ∈ nonPBids processed := by
    rw [mem_nonPBids_append]
    simp [hpb]
  by_cases hm : k ∈ nonPBids processed <;> simp [hm, hiff]

theorem baseOk_end_page (processed : List Element) (s : PaginationState)
    (r : PageBreakReason) (h : BaseOk processed s)
    (hne : s.current_page.elements ≠ []) : BaseOk processed (s.end_page r) := by
  refine ⟨?_, ?_, ?_, ?_, ?_, ?_⟩
  · simp [PaginationState.end_page, h.pagesLen]
  · intro i hi
    simp only [PaginationState.end_page, List.length_append, List.length_singleton] at hi
    simp only [PaginationState.end_page]
    by_cases hlt : i < s.pages.length
    · rw [List.getElem_append_left hlt]
      exact h.pagesId i hlt
    · have hieq : i = s.pages.length := by omega
      subst hieq
      have hlen : s.pages.length < (s.pages ++ [s.current_page]).length := by simp
      have hget : (s.pages ++ [s.current_page])[s.pages.length] = s.current_page := by
        simp
      rw [hget, h.currId, h.pagesLen]
  · simp [PaginationState.end_page, Page.new]
  · intro pg hpg
    simp only [PaginationState.end_page, List.mem_append, List.mem_singleton] at hpg
    rcases hpg with hpg | hpg
    · exact h.pagesNe pg hpg
    · rw [hpg]
      exact hne
  · intro _
    simp [PaginationState.end_page, Page.new]
  · intro k
    exact h.posCount k

theorem baseOk_not_at_start_ne (processed : List Element) (s : PaginationState)
    (h : BaseOk processed s) (hst : ¬ s.at_page_start = true) :
    s.current_page.elements ≠ [] := by
  intro he
  apply hst
  simp [PaginationState.at_page_start, h.currNe he]

theorem baseOk_add_element (processed : List Element) (e : Element) (s : PaginationState)
    (lc : LineCalculation) (b : Bool) (hpb : e.element_type ≠ ElementType.pageBreak)
    (h : BaseOk processed s) :
    BaseOk (processed ++ [e]) (s.add_element e lc b) := by
  refine ⟨h.pagesLen, h.pagesId, h.currId, h.pagesNe, ?_, ?_⟩
  · intro he
    simp [PaginationState.add_element] at he
  · intro k
    show countKey (insertPos s.element_positions e.id _) k = _
    by_cases hk : k = e.id
    · subst hk
      rw [countKey_insertPos_self, h.posCount _]
      rw [if_pos ((mem_nonPBids_append processed e _).mpr (Or.inr ⟨hpb, rfl⟩))]
      by_cases hm : e.id ∈ nonPBids processed <;> simp [hm]
    · rw [countKey_insertPos_ne _ _ _ _ hk, h.posCount k]
      have hiff : (k ∈ nonPBids (processed ++ [e])) ↔ k ∈ nonPBids processed := by
        rw [mem_nonPBids_append]
        simp [hk]
      by_cases hm : k ∈ nonPBids processed <;> simp [hm, hiff]

theorem baseOk_add_split_first (processed : List Element) (e : Element)
    (s : PaginationState) (fl : Nat) (mm : Option (List Char)) (b : Bool) (sb : Nat)
    (h : BaseOk processed s) :
    BaseOk processed (s.add_split_element_first_part e fl mm b sb) := by
  unfold PaginationState.add_split_element_first_part
  by_cases hmm : mm.isSome <;>
    [rw [if_pos hmm]; rw [if_neg hmm]] <;>
    exact ⟨h.pagesLen, h.pagesId, h.currId, h.pagesNe, by intro he; simp at he,
      h.posCount⟩

theorem baseOk_add_split_second (processed : List Element) (e : Element)
    (s : PaginationState) (fl sl : Nat) (cl : Option (List Char))
    (h : BaseOk processed s) :
    BaseOk processed (s.add_split_element_second_part e fl sl cl) := by
  refine ⟨h.pagesLen, h.pagesId, h.currId, h.pagesNe, ?_, h.posCount⟩
  intro he
  simp [PaginationState.add_split_element_second_part] at he

theorem baseOk_record_split (processed : List Element) (e : Element)
    (s : PaginationState) (p1 p2 : PageIdentifier) (sl el : Nat)
    (hpb : e.element_type ≠ ElementType.pageBreak) (h : BaseOk processed s) :
    BaseOk (processed ++ [e]) (s.record_split_position e.id p1 p2 sl el) := by
  refine ⟨h.pagesLen, h.pagesId, h.currId, h.pagesNe, h.currNe, ?_⟩
  intro k
  show countKey (insertPos s.element_positions e.id _) k = _
  by_cases hk : k = e.id
  · subst hk
    rw [countKey_insertPos_self, h.posCount _]
    rw [if_pos ((mem_nonPBids_append processed e _).mpr (Or.inr ⟨hpb, rfl⟩))]
    by_cases hm : e.id ∈ nonPBids processed <;> simp [hm]
  · rw [countKey_insertPos_ne _ _ _ _ hk, h.posCount k]
    have hiff : (k ∈ nonPBids (processed ++ [e])) ↔ k ∈ nonPBids processed := by
      rw [mem_nonPBids_append]
      simp [hk]
    by_cases hm : k ∈ nonPBids processed <;> simp [hm, hiff]

theorem baseOk_add_warning (processed : List Element) (s : PaginationState)
    (eid : Option String) (wt : WarningType) (msg : List Char)
    (h : BaseOk processed s) : BaseOk processed (s.add_warning eid wt msg) :=
  ⟨h.pagesLen, h.pagesId, h.currId, h.pagesNe, h.currNe, h.posCount⟩

theorem add_split_first_elements_ne (s : PaginationState) (e : Element) (fl : Nat)
    (mm : Option (List Char)) (b : Bool) (sb : Nat) :
    (s.add_split_element_first_part e fl mm b sb).current_page.elements ≠ [] := by
  unfold PaginationState.add_split_element_first_part
  by_cases hmm : mm.isSome <;> [rw [if_pos hmm]; rw [if_neg hmm]] <;> simp

theorem baseOk_applyDecision (processed : List Element) (cfg : PageConfig) (e : Element)
    (lines : LineCalculation) (sb : Nat) (s : PaginationState) (d : BreakDecision)
    (hpb : e.element_type ≠ ElementType.pageBreak) (h : BaseOk processed s) :
    BaseOk (processed ++ [e]) (applyDecision cfg e lines sb s d) := by
  cases d with
  | fits => exact baseOk_add_element _ _ _ _ _ hpb h
  | breakBefore =>
      unfold applyDecision
      dsimp only
      by_cases hst : s.at_page_start
      · rw [if_pos hst]
        exact baseOk_add_element _ _ _ _ _ hpb h
      · rw [if_neg hst]
        exact baseOk_add_element _ _ _ _ _ hpb
          (baseOk_end_page _ _ _ h (baseOk_not_at_start_ne _ _ h hst))
  | splitAt line =>
      unfold applyDecision
      dsimp only
      split <;> split
      · exact baseOk_record_split _ _ _ _ _ _ _ hpb
          (baseOk_add_split_second _ _ _ _ _ _
            (baseOk_end_page _ _ _ (baseOk_add_split_first _ _ _ _ _ _ _ h)
              (add_split_first_elements_ne _ _ _ _ _ _)))
      · by_cases hst : s.at_page_start
        · rw [if_pos hst]
          exact baseOk_add_element _ _ _ _ _ hpb h
        · rw [if_neg hst]
          exact baseOk_add_element _ _ _ _ _ hpb
            (baseOk_end_page _ _ _ h (baseOk_not_at_start_ne _ _ h hst))
      · exact baseOk_record_split _ _ _ _ _ _ _ hpb
          (baseOk_add_split_second _ _ _ _ _ _
            (baseOk_end_page _ _ _ (baseOk_add_split_first _ _ _ _ _ _ _ h)
              (add_split_first_elements_ne _ _ _ _ _ _)))
      · by_cases hst : s.at_page_start
        · rw [if_pos hst]
          exact baseOk_add_element _ _ _ _ _ hpb h
        · rw [if_neg hst]
          exact baseOk_add_element _ _ _ _ _ hpb
            (baseOk_end_page _ _ _ h (baseOk_not_at_start_ne _ _ h hst))

theorem baseOk_step (processed : List Element) (cfg : PageConfig) (e : Element)
    (rest : List Element) (s : PaginationState) (h : BaseOk processed s) :
    BaseOk (processed ++ [e]) (stepElem cfg e rest s) := by
  unfold stepElem
  by_cases hpb : e.element_type = ElementType.pageBreak
  · rw [if_pos hpb]
    by_cases hst : s.at_page_start
    · rw [if_pos hst]
      exact baseOk_pb_extend _ _ _ hpb h
    · rw [if_neg hst]
      exact baseOk_pb_extend _ _ _ hpb
        (baseOk_end_page _ _ _ h (baseOk_not_at_start_ne _ _ h hst))
  · rw [if_neg hpb]
    dsimp only
    have h1 := baseOk_applyDecision processed cfg e (calculate cfg e)
      (if s.at_page_start then 0 else (calculate cfg e).space_before) s
      (decide_break cfg e (calculate cfg e)
        ((if s.at_page_start then 0 else (calculate cfg e).space_before) +
          (calculate cfg e).total_lines)
        (s.lines_remaining cfg.lines_per_page) (e :: rest)) hpb h
    revert h1
    generalize applyDecision cfg e (calculate cfg e)
      (if s.at_page_start then 0 else (calculate cfg e).space_before) s
      (decide_break cfg e (calculate cfg e)
        ((if s.at_page_start then 0 else (calculate cfg e).space_before) +
          (calculate cfg e).total_lines)
        (s.lines_remaining cfg.lines_per_page) (e :: rest)) = s1
    intro h1
    have h2 : BaseOk (processed ++ [e])
        (if e.force_page_break_after = true ∧ ¬ s1.at_page_start = true then
          s1.end_page PageBreakReason.forced else s1) := by
      split
      · next hcond =>
          exact baseOk_end_page _ _ _ h1 (baseOk_not_at_start_ne _ _ h1 hcond.2)
      · exact h1
    split
    · exact baseOk_add_warning _ _ _ _ _ h2
    · exact h2

theorem baseOk_run (cfg : PageConfig) :
    ∀ (l processed : List Element) (s : PaginationState),
      BaseOk processed s → BaseOk (processed ++ l) (runElems cfg l s)
  | [], processed, s, h => by simpa using h
  | e :: rest, processed, s, h => by
      have h2 := baseOk_run cfg rest (processed ++ [e]) _
        (baseOk_step processed cfg e rest s h)
      simpa [List.append_assoc] using h2

theorem baseOk_paginate (elements : List Element) (cfg : PageConfig) :
    BaseOk elements (runElems cfg elements PaginationState.new) := by
  simpa using baseOk_run cfg elements [] _ baseOk_init

theorem finalize_pages (s : PaginationState) (t n : Nat) :
    (s.finalize t n).pages =
      if s.current_page.elements.isEmpty then s.pages
      else s.pages ++ [s.current_page] := rfl

theorem finalize_page_count (s : PaginationState) (t n : Nat) :
    (s.finalize t n).stats.page_count =
      (if s.current_page.elements.isEmpty then s.pages
        else s.pages ++ [s.current_page]).length := rfl

/-- C10: for every input, the i-th page of the result (0-indexed) has
identifier `Sequential (i+1)` and contains at least one placement: the
core emits consecutive sequential page numbers starting at 1 and never
emits an empty page. -/
theorem c10_pages_sequential_nonempty (elements : List Element) (cfg : PageConfig)
    (t : Nat) (i : Nat)
    (hi : i < (paginate elements cfg t).pages.length) :
    ((paginate elements cfg t).pages[i]).identifier = PageIdentifier.sequential (i + 1) ∧
    ((paginate elements cfg t).pages[i]).elements ≠ [] := by
  have hb := baseOk_paginate elements cfg
  revert hi
  unfold paginate
  rw [finalize_pages]
  by_cases hcur : (runElems cfg elements PaginationState.new).current_page.elements.isEmpty
  · rw [if_pos hcur]
    intro hi
    exact ⟨hb.pagesId i hi, hb.pagesNe _ (List.getElem_mem hi)⟩
  · rw [if_neg hcur]
    intro hi
    simp only [List.length_append, List.length_singleton] at hi
    by_cases hlt : i < (runElems cfg elements PaginationState.new).pages.length
    · rw [List.getElem_append_left hlt]
      exact ⟨hb.pagesId i hlt, hb.pagesNe _ (List.getElem_mem hlt)⟩
    · have hieq : i = (runElems cfg elements PaginationState.new).pages.length := by omega
      subst hieq
      rw [List.getElem_concat_length]
      constructor
      · rw [hb.currId, hb.pagesLen]
      · intro he
        exact hcur (by simp [he])
      rfl

theorem finalize_positions (s : PaginationState) (t n : Nat) :
    (s.finalize t n).element_positions = s.element_positions := rfl

/-- C7 (amended): the result's `element_positions` map contains exactly
one entry keyed by the id of each *non-PageBreak* input element;
PageBreak elements record no entry (an id carried only by PageBreak
elements has none). -/
theorem c7_amended (elements : List Element) (cfg : PageConfig) (t : Nat) :
    (∀ e ∈ elements, e.element_type ≠ ElementType.pageBreak →
      countKey (paginate elements cfg t).element_positions e.id = 1) ∧
    (∀ e ∈ elements, e.element_type = ElementType.pageBreak →
      (∀ e2 ∈ elements, e2.id = e.id → e2.element_type = ElementType.pageBreak) →
      countKey (paginate elements cfg t).element_positions e.id = 0) := by
  have hb := baseOk_paginate elements cfg
  constructor
  · intro e he hne
    unfold paginate
    rw [finalize_positions, hb.posCount]
    rw [if_pos ?_]
    refine List.mem_map.mpr ⟨e, List.mem_filter.mpr ⟨he, by simp [hne]⟩, rfl⟩
  · intro e he hpb hall
    unfold paginate
    rw [finalize_positions, hb.posCount]
    rw [if_neg ?_]
    intro hmem
    rcases List.mem_map.mp hmem with ⟨e2, he2, hid⟩
    rcases List.mem_filter.mp he2 with ⟨he2m, he2t⟩
    have := hall e2 he2m hid
    simp [this] at he2t

theorem decide_break_upcoming_irrel (cfg : PageConfig) (e : Element)
    (lines : LineCalculation) (tn rem : Nat)
    (h : (cfg.style_for e.element_type).keep_with_next = false)
    (u1 u2 : List Element) :
    decide_break cfg e lines tn rem u1 = decide_break cfg e lines tn rem u2 := by
  unfold decide_break
  by_cases hfit : tn ≤ rem
  · rw [if_pos hfit, if_pos hfit]
    dsimp only
    rw [h]
    simp
  · rw [if_neg hfit, if_neg hfit]

theorem stepElem_rest_irrel (cfg : PageConfig) (e : Element) (r1 r2 : List Element)
    (s : PaginationState)
    (h : (cfg.style_for e.element_type).keep_with_next = false) :
    stepElem cfg e r1 s = stepElem cfg e r2 s := by
  unfold stepElem
  by_cases hpb : e.element_type = ElementType.pageBreak
  · rw [if_pos hpb, if_pos hpb]
  · rw [if_neg hpb, if_neg hpb]
    dsimp only
    rw [decide_break_upcoming_irrel cfg e _ _ _ h (e :: r1) (e :: r2)]

theorem runElems_append_kwn_free (cfg : PageConfig) (l1 l2 : List Element) :
    ∀ s : PaginationState,
      (∀ e ∈ l1, (cfg.style_for e.element_type).keep_with_next = false) →
      runElems cfg (l1 ++ l2) s = runElems cfg l2 (runElems cfg l1 s) := by
  induction l1 with
  | nil => intro s _; rfl
  | cons e l1 ih =>
      intro s h
      show runElems cfg (l1 ++ l2) (stepElem cfg e (l1 ++ l2) s) = _
      rw [stepElem_rest_irrel cfg e (l1 ++ l2) l1 s (h e (by simp))]
      exact ih _ fun x hx => h x (by simp [hx])

/-- C9 (amended): appending (equivalently, removing) a trailing
PageBreak element never changes `page_count`, because `finalize` drops
a trailing page without placements — provided no element's style has
`keep_with_next` set (with keep-with-next, the trailing PageBreak can
additionally change an earlier break decision through the look-ahead,
which re-counts it as one line of content). -/
theorem c9_amended (elements : List Element) (cfg : PageConfig) (t : Nat)
    (pbe : Element) (hpbe : pbe.element_type = ElementType.pageBreak)
    (hkwn : ∀ e ∈ elements, (cfg.style_for e.element_type).keep_with_next = false) :
    (paginate (elements ++ [pbe]) cfg t).stats.page_count =
      (paginate elements cfg t).stats.page_count := by
  unfold paginate
  rw [finalize_page_count, finalize_page_count,
    runElems_append_kwn_free cfg elements [pbe] _ hkwn]
  have hb : BaseOk elements (runElems cfg elements PaginationState.new) :=
    baseOk_paginate elements cfg
  set s := runElems cfg elements PaginationState.new with hs
  show (if (stepElem cfg pbe [] s).current_page.elements.isEmpty then
      (stepElem cfg pbe [] s).pages
    else (stepElem cfg pbe [] s).pages ++ [(stepElem cfg pbe [] s).current_page]).length = _
  unfold stepElem
  rw [if_pos hpbe]
  by_cases hst : s.at_page_start
  · rw [if_pos hst]
  · rw [if_neg hst]
    have hne : s.current_page.elements ≠ [] := baseOk_not_at_start_ne _ _ hb hst
    rw [if_pos (by simp [PaginationState.end_page, Page.new]),
      if_neg (by simpa [List.isEmpty_iff] using hne)]
    simp [PaginationState.end_page]


/-- C10 witness: the single-Action run has page 0 = Sequential 1 with a
placement. -/
theorem c10_witness :
    ((paginate [exAction] feature_film 0).pages.getD 0
        (Page.new (PageIdentifier.sequential 99))).identifier =
      PageIdentifier.sequential 1 ∧
    ((paginate [exAction] feature_film 0).pages.getD 0
        (Page.new (PageIdentifier.sequential 99))).elements ≠ [] := by
  have h := c10_pages_sequential_nonempty [exAction] feature_film 0 0 (by decide)
  rw [List.getD_eq_getElem _ _ (by decide)]
  exact h

/-- C7 witness: in the run `[exAction, exPageBreak]`, the Action id has
exactly one entry and the PageBreak id has none. -/
theorem c7_witness :
    countKey (paginate [exAction, exPageBreak] feature_film 0).element_positions
      exAction.id = 1 ∧
    countKey (paginate [exAction, exPageBreak] feature_film 0).element_positions
      exPageBreak.id = 0 :=
  ⟨(c7_amended [exAction, exPageBreak] feature_film 0).1 exAction (by decide) (by decide),
   (c7_amended [exAction, exPageBreak] feature_film 0).2 exPageBreak (by decide)
     (by decide) (by decide)⟩

/-- C9 witness: appending a trailing PageBreak to the keep-with-next-free
input `[exAction]` leaves `page_count` unchanged. -/
theorem c9_witness :
    exPageBreak.element_type = ElementType.pageBreak ∧
    (∀ e ∈ [exAction], (feature_film.style_for e.element_type).keep_with_next = false) ∧
    (paginate ([exAction] ++ [exPageBreak]) feature_film 0).stats.page_count =
      (paginate [exAction] feature_film 0).stats.page_count :=
  ⟨by decide, by decide,
   c9_amended [exAction] feature_film 0 exPageBreak (by decide) (by decide)⟩


theorem findElem_append_of_some (P l2 : List Element) (k : String) (e : Element)
    (h : findElem P k = some e) : findElem (P ++ l2) k = some e := by
  unfold findElem at *
  rw [List.find?_append, h]
  rfl

theorem findElem_append_self (P : List Element) (e : Element)
    (h : e.id ∉ P.map Element.id) : findElem (P ++ [e]) e.id = some e := by
  unfold findElem
  rw [List.find?_append]
  have hnone : P.find? (fun x => x.id == e.id) = none := by
    rw [List.find?_eq_none]
    intro x hx hbeq
    exact h (List.mem_map.mpr ⟨x, hx, by simpa using hbeq⟩)
  rw [hnone]
  simp [List.find?]

theorem ledgerFold_lt (cfg : PageConfig) (P : List Element) (pes : List PageElement)
    (acc : Nat) (h : acc < 256) : ledgerFold cfg P pes acc < 256 := by
  induction pes generalizing acc with
  | nil => exact h
  | cons pe rest ih =>
      apply ih
      unfold ledgerStep
      omega

theorem ledgerFold_append (cfg : PageConfig) (P : List Element)
    (pes : List PageElement) (pe : PageElement) (acc : Nat) :
    ledgerFold cfg P (pes ++ [pe]) acc = ledgerStep cfg P (ledgerFold cfg P pes acc) pe := by
  unfold ledgerFold
  rw [List.foldl_append]
  rfl

theorem reconSpace_eq (acc sb : Nat) (hacc : acc < 256) (hsb : sb < 256) :
    reconSpace acc ((acc + sb + 1) % 256) = sb := by
  unfold reconSpace
  omega

theorem placeShare_congr (cfg : PageConfig) (P P2 : List Element) (pe : PageElement)
    (h : ∀ e, findElem P pe.element_id = some e → findElem P2 pe.element_id = some e)
    (hsome : pe.line_range = none → ∃ e, findElem P pe.element_id = some e) :
    placeShare cfg P pe = placeShare cfg P2 pe := by
  unfold placeShare
  cases hr : pe.line_range with
  | some r => rfl
  | none =>
      rcases hsome hr with ⟨e, he⟩
      rw [he, h e he]

theorem ledgerFold_congr (cfg : PageConfig) (P P2 : List Element)
    (pes : List PageElement) (acc : Nat)
    (h : ∀ pe ∈ pes, placeShare cfg P pe = placeShare cfg P2 pe) :
    ledgerFold cfg P pes acc = ledgerFold cfg P2 pes acc := by
  induction pes generalizing acc with
  | nil => rfl
  | cons pe rest ih =>
      show ledgerFold cfg P rest (ledgerStep cfg P acc pe) = _
      rw [show ledgerStep cfg P acc pe = ledgerStep cfg P2 acc pe by
        unfold ledgerStep
        rw [h pe (by simp)]]
      exact ih _ fun x hx => h x (by simp [hx])

/-- Per-placement soundness relative to the input elements and the
multiset of pages (finalized plus current): split placements carry
exact `u32` ranges tiling `[0, content_lines)`, `u8`-reduced line
counts, and each half has its partner placement somewhere in the
pages. -/
def placementOk (cfg : PageConfig) (elements : List Element) (allPgs : List Page)
    (pe : PageElement) : Prop :=
  ∃ e, findElem elements pe.element_id = some e ∧
    match pe.line_range with
    | none => pe.is_continuation = false
    | some r =>
        match pe.is_continuation with
        | true =>
            r.stop = (calculate cfg e).content_lines ∧ r.start < r.stop ∧
            pe.line_count = (r.stop - r.start) % 256 ∧
            ∃ pg2 ∈ allPgs, ∃ pe2 ∈ pg2.elements, pe2.element_id = pe.element_id ∧
              pe2.is_continuation = false ∧
              pe2.line_range = some { start := 0, stop := r.start }
        | false =>
            r.start = 0 ∧ 0 < r.stop ∧ r.stop < (calculate cfg e).content_lines ∧
            pe.line_count = r.stop % 256 ∧
            (e.element_type = ElementType.dialogue ∨
              e.element_type = ElementType.action) ∧
            ∃ pg2 ∈ allPgs, ∃ pe2 ∈ pg2.elements, pe2.element_id = pe.element_id ∧
              pe2.is_continuation = true ∧
              pe2.line_range =
                some { start := r.stop, stop := (calculate cfg e).content_lines }

/-- The final placement of the page is the first half of a split
Dialogue: it has a line range ending strictly before the element's
content lines. -/
def lastPlacementDialogueSplit (cfg : PageConfig) (elements : List Element)
    (pg : Page) : Prop :=
  ∃ pe, pg.elements.getLast? = some pe ∧ ∃ r, pe.line_range = some r ∧
    ∃ e, findElem elements pe.element_id = some e ∧
      e.element_type = ElementType.dialogue ∧
      r.stop < (calculate cfg e).content_lines

/-- Bottom-continuation coherence of one page, as the code actually
behaves: the marker is present iff continuation is enabled and the
final placement is a split Dialogue first half. -/
def pageBottomOk (cfg : PageConfig) (elements : List Element) (pg : Page) : Prop :=
  pg.bottom_continuation.isSome = true ↔
    (cfg.continuation_style.enabled = true ∧
      lastPlacementDialogueSplit cfg elements pg)

/-- The ledger-level state invariant (needs `ConfigOk` and distinct ids
to be preserved): the `u8` `lines_used` of every page equals the ledger
of its placements, the current page carries no bottom continuation and
no split first half, and every placement is sound. -/
structure HeavyOk (cfg : PageConfig) (processed : List Element) (s : PaginationState) :
    Prop where
  currBottom : s.current_page.bottom_continuation = none
  currLedger : s.current_page.lines_used =
    ledgerFold cfg processed s.current_page.elements 0
  pagesLedger : ∀ pg ∈ s.pages,
    pg.lines_used = (ledgerFold cfg processed pg.elements 0 +
      (if pg.bottom_continuation.isSome then 1 else 0)) % 256
  currNoFirst : ∀ pe ∈ s.current_page.elements, ∀ r, pe.line_range = some r →
    pe.is_continuation = true
  placOk : ∀ pg ∈ s.pages ++ [s.current_page], ∀ pe ∈ pg.elements,
    placementOk cfg processed (s.pages ++ [s.current_page]) pe
  bottomOk : ∀ pg ∈ s.pages, pageBottomOk cfg processed pg

theorem heavyOk_init (cfg : PageConfig) : HeavyOk cfg [] PaginationState.new := by
  refine ⟨rfl, rfl, ?_, ?_, ?_, ?_⟩
  · intro pg hpg
    simp [PaginationState.new] at hpg
  · intro pe hpe
    simp [PaginationState.new, Page.new] at hpe
  · intro pg hpg pe hpe
    simp only [PaginationState.new, List.nil_append, List.mem_singleton] at hpg
    rw [hpg] at hpe
    simp [Page.new] at hpe
  · intro pg hpg
    simp [PaginationState.new] at hpg

theorem mem_of_getLast?_eq (l : List PageElement) (a : PageElement)
    (h : l.getLast? = some a) : a ∈ l := by
  rcases List.mem_getLast?_eq_getLast (l := l) (x := a) (by rw [h]; rfl) with ⟨hne, heq⟩
  rw [heq]
  exact List.getLast_mem hne

/-- Page-multiset growth: every page of `A` has a superset page in `B`. -/
def pagesLe (A B : List Page) : Prop :=
  ∀ pg ∈ A, ∃ pg2 ∈ B, ∀ x ∈ pg.elements, x ∈ pg2.elements

theorem pagesLe_refl (A : List Page) : pagesLe A A :=
  fun pg hpg => ⟨pg, hpg, fun _ hx => hx⟩

theorem placementOk_mono (cfg : PageConfig) (P P2 : List Element) (A B : List Page)
    (pe : PageElement)
    (hP : ∀ k e, findElem P k = some e → findElem P2 k = some e)
    (hAB : pagesLe A B) (h : placementOk cfg P A pe) : placementOk cfg P2 B pe := by
  unfold placementOk at *
  rcases h with ⟨e, he, hrest⟩
  refine ⟨e, hP _ _ he, ?_⟩
  cases hr : pe.line_range with
  | none =>
      rw [hr] at hrest
      exact hrest
  | some r =>
      rw [hr] at hrest
      cases hc : pe.is_continuation with
      | true =>
          rw [hc] at hrest
          obtain ⟨h1, h2, h3, pg2, hpg2, pe2, hpe2, hrest2⟩ := hrest
          rcases hAB pg2 hpg2 with ⟨pg3, hpg3, hsub⟩
          exact ⟨h1, h2, h3, pg3, hpg3, pe2, hsub pe2 hpe2, hrest2⟩
      | false =>
          rw [hc] at hrest
          obtain ⟨h1, h2, h3, h4, h5, pg2, hpg2, pe2, hpe2, hrest2⟩ := hrest
          rcases hAB pg2 hpg2 with ⟨pg3, hpg3, hsub⟩
          exact ⟨h1, h2, h3, h4, h5, pg3, hpg3, pe2, hsub pe2 hpe2, hrest2⟩

theorem pageBottomOk_congr (cfg : PageConfig) (P P2 : List Element) (pg : Page)
    (hP : ∀ k e, findElem P k = some e → findElem P2 k = some e)
    (hsucc : ∀ pe, pg.elements.getLast? = some pe →
      ∃ e1, findElem P pe.element_id = some e1)
    (h : pageBottomOk cfg P pg) : pageBottomOk cfg P2 pg := by
  unfold pageBottomOk lastPlacementDialogueSplit at *
  constructor
  · intro hb
    rcases h.mp hb with ⟨hen, pe, hlast, r, hr, e, he, hrest⟩
    exact ⟨hen, pe, hlast, r, hr, e, hP _ _ he, hrest⟩
  · rintro ⟨hen, pe, hlast, r, hr, e, he2, htype, hlt⟩
    apply h.mpr
    rcases hsucc pe hlast with ⟨e1, he1⟩
    have heq : e1 = e := by
      have hstab := hP _ _ he1
      rw [hstab] at he2
      exact Option.some_injective _ he2
    subst heq
    exact ⟨hen, pe, hlast, r, hr, e1, he1, htype, hlt⟩

theorem heavyOk_placement_lookup (cfg : PageConfig) (P : List Element)
    (s : PaginationState) (h : HeavyOk cfg P s) (pg : Page)
    (hpg : pg ∈ s.pages ++ [s.current_page]) (pe : PageElement)
    (hpe : pe ∈ pg.elements) : ∃ e1, findElem P pe.element_id = some e1 := by
  rcases h.placOk pg hpg pe hpe with ⟨e1, he1, _⟩
  exact ⟨e1, he1⟩

theorem heavyOk_extend (cfg : PageConfig) (P : List Element) (e : Element)
    (s : PaginationState) (h : HeavyOk cfg P s) : HeavyOk cfg (P ++ [e]) s := by
  have hP : ∀ k e1, findElem P k = some e1 → findElem (P ++ [e]) k = some e1 :=
    fun k e1 hk => findElem_append_of_some P [e] k e1 hk
  have hshare : ∀ pg ∈ s.pages ++ [s.current_page], ∀ pe ∈ pg.elements,
      placeShare cfg P pe = placeShare cfg (P ++ [e]) pe := by
    intro pg hpg pe hpe
    apply placeShare_congr cfg P (P ++ [e]) pe (fun e1 he1 => hP _ _ he1)
    intro _
    exact heavyOk_placement_lookup cfg P s h pg hpg pe hpe
  refine ⟨h.currBottom, ?_, ?_, h.currNoFirst, ?_, ?_⟩
  · rw [h.currLedger]
    exact ledgerFold_congr cfg P (P ++ [e]) _ 0
      (hshare s.current_page (by simp))
  · intro pg hpg
    rw [h.pagesLedger pg hpg]
    rw [ledgerFold_congr cfg P (P ++ [e]) _ 0 (hshare pg (by simp [hpg]))]
  · intro pg hpg pe hpe
    exact placementOk_mono cfg P (P ++ [e]) _ _ pe hP
      (pagesLe_refl _) (h.placOk pg hpg pe hpe)
  · intro pg hpg
    refine pageBottomOk_congr cfg P (P ++ [e]) pg hP ?_ (h.bottomOk pg hpg)
    intro pe hlast
    exact heavyOk_placement_lookup cfg P s h pg (by simp [hpg]) pe
      (mem_of_getLast?_eq _ _ hlast)

theorem calculate_space_before (cfg : PageConfig) (e : Element) :
    (calculate cfg e).space_before = (cfg.style_for e.element_type).space_before := rfl

theorem heavyOk_lines_used_lt (cfg : PageConfig) (P : List Element)
    (s : PaginationState) (h : HeavyOk cfg P s) : s.current_page.lines_used < 256 := by
  rw [h.currLedger]
  exact ledgerFold_lt cfg P _ 0 (by omega)

theorem heavyOk_add_element (cfg : PageConfig) (P : List Element) (e : Element)
    (s : PaginationState) (b : Bool) (hcfg : ConfigOk cfg)
    (hfind : findElem P e.id = some e) (h : HeavyOk cfg P s) :
    HeavyOk cfg P (s.add_element e (calculate cfg e) b) := by
  have hl : s.current_page.lines_used < 256 := heavyOk_lines_used_lt cfg P s h
  have hsb : (if b then 0 else (calculate cfg e).space_before) < 256 := by
    cases b with
    | true => simp
    | false =>
        simp only [if_false, Bool.false_eq_true, calculate_space_before]
        exact hcfg e.element_type
  have hAB : pagesLe (s.pages ++ [s.current_page])
      ((s.add_element e (calculate cfg e) b).pages ++
        [(s.add_element e (calculate cfg e) b).current_page]) := by
    intro pg2 hpg2
    rcases List.mem_append.mp hpg2 with hpg2 | hpg2
    · exact ⟨pg2, by
        unfold PaginationState.add_element
        simp [hpg2], fun x hx => hx⟩
    · rcases List.mem_singleton.mp hpg2 with rfl
      refine ⟨(s.add_element e (calculate cfg e) b).current_page, by simp, ?_⟩
      intro x hx
      unfold PaginationState.add_element
      dsimp only
      exact List.mem_append.mpr (Or.inl hx)
  refine ⟨h.currBottom, ?_, h.pagesLedger, ?_, ?_, h.bottomOk⟩
  · unfold PaginationState.add_element
    dsimp only
    rw [ledgerFold_append, ← h.currLedger]
    unfold ledgerStep placeShare
    dsimp only
    rw [hfind]
    dsimp only
    rw [reconSpace_eq _ _ hl hsb]
    omega
  · unfold PaginationState.add_element
    dsimp only
    intro pe hpe r hr
    rcases List.mem_append.mp hpe with hpe | hpe
    · exact h.currNoFirst pe hpe r hr
    · rcases List.mem_singleton.mp hpe with rfl
      simp at hr
  · intro pg hpg pe hpe
    rcases List.mem_append.mp hpg with hpg | hpg
    · refine placementOk_mono cfg P P _ _ pe (fun k e1 hk => hk) hAB ?_
      apply h.placOk pg _ pe hpe
      apply List.mem_append.mpr
      left
      revert hpg
      unfold PaginationState.add_element
      dsimp only
      exact id
    · rcases List.mem_singleton.mp hpg with rfl
      revert hpe
      unfold PaginationState.add_element
      dsimp only
      intro hpe
      rcases List.mem_append.mp hpe with hpe | hpe
      · exact placementOk_mono cfg P P _ _ pe (fun k e1 hk => hk) hAB
          (h.placOk s.current_page (by simp) pe hpe)
      · rcases List.mem_singleton.mp hpe with rfl
        exact ⟨e, hfind, rfl⟩

theorem heavyOk_end_page (cfg : PageConfig) (P : List Element) (s : PaginationState)
    (r : PageBreakReason) (h : HeavyOk cfg P s) : HeavyOk cfg P (s.end_page r) := by
  have hAB : pagesLe (s.pages ++ [s.current_page])
      ((s.end_page r).pages ++ [(s.end_page r).current_page]) := by
    intro pg hpg
    refine ⟨pg, ?_, fun x hx => hx⟩
    simp only [PaginationState.end_page]
    rcases List.mem_append.mp hpg with hpg | hpg
    · simp [hpg]
    · rcases List.mem_singleton.mp hpg with rfl
      simp
  refine ⟨?_, ?_, ?_, ?_, ?_, ?_⟩
  · simp [PaginationState.end_page, Page.new]
  · simp [PaginationState.end_page, Page.new, ledgerFold]
  · intro pg hpg
    simp only [PaginationState.end_page, List.mem_append, List.mem_singleton] at hpg
    rcases hpg with hpg | hpg
    · exact h.pagesLedger pg hpg
    · subst hpg
      rw [h.currLedger, h.currBottom]
      have := ledgerFold_lt cfg P s.current_page.elements 0 (by omega)
      simp only [Option.isSome_none, Bool.false_eq_true, if_false]
      omega
  · intro pe hpe
    simp [PaginationState.end_page, Page.new] at hpe
  · intro pg hpg pe hpe
    have hpg2 : pg ∈ s.pages ++ [s.current_page] := by
      simp only [PaginationState.end_page, List.mem_append, List.mem_singleton] at hpg
      rcases hpg with (hpg | hpg) | hpg
      · exact List.mem_append.mpr (Or.inl hpg)
      · exact List.mem_append.mpr (Or.inr (by simp [hpg]))
      · subst hpg
        simp [Page.new] at hpe
    exact placementOk_mono cfg P P _ _ pe (fun k e1 hk => hk) hAB
      (h.placOk pg hpg2 pe hpe)
  · intro pg hpg
    simp only [PaginationState.end_page, List.mem_append, List.mem_singleton] at hpg
    rcases hpg with hpg | hpg
    · exact h.bottomOk pg hpg
    · subst hpg
      unfold pageBottomOk lastPlacementDialogueSplit
      constructor
      · intro hb
        rw [h.currBottom] at hb
        simp at hb
      · rintro ⟨hen, pe, hlast, rr, hr, e, he, htype, hlt⟩
        exfalso
        have hpe_mem := mem_of_getLast?_eq _ _ hlast
        have hcont := h.currNoFirst pe hpe_mem rr hr
        rcases h.placOk s.current_page (by simp) pe hpe_mem with ⟨e1, he1, hrest⟩
        simp only [hr, hcont] at hrest
        have he1e : e1 = e := by
          rw [he1] at he
          exact Option.some_injective _ he
        subst he1e
        obtain ⟨hstop, _, _, _⟩ := hrest
        omega

theorem split_dialogue_parts (cfg : PageConfig) (e : Element) (lc : LineCalculation)
    (k : Nat) :
    (split_dialogue cfg e lc k).first_part_lines +
      (split_dialogue cfg e lc k).second_part_lines = lc.wrapped_lines.length := by
  unfold split_dialogue
  dsimp only
  rw [List.length_take, List.length_drop]
  omega

theorem split_action_parts (lc : LineCalculation) (k : Nat) :
    (split_action lc k).first_part_lines + (split_action lc k).second_part_lines =
      lc.wrapped_lines.length := by
  unfold split_action
  dsimp only
  rw [List.length_take, List.length_drop]
  omega

theorem calculate_content (cfg : PageConfig) (e : Element) :
    (calculate cfg e).content_lines = (calculate cfg e).wrapped_lines.length := rfl

theorem split_dialogue_more_isSome (cfg : PageConfig) (e : Element)
    (lc : LineCalculation) (k : Nat)
    (hsnd : 0 < (split_dialogue cfg e lc k).second_part_lines) :
    (split_dialogue cfg e lc k).more_marker.isSome = true ↔
      cfg.continuation_style.enabled = true := by
  unfold split_dialogue at *
  dsimp only at hsnd ⊢
  rw [List.length_drop] at hsnd
  have hne : ¬ (lc.wrapped_lines.drop (min k lc.wrapped_lines.length)).isEmpty = true := by
    simp only [List.isEmpty_iff, List.drop_eq_nil_iff]
    omega
  by_cases he : cfg.continuation_style.enabled = true
  · rw [if_pos ⟨he, hne⟩]
    simp [he]
  · rw [if_neg (fun hh => he hh.1)]
    simp [he]

theorem split_action_more (lc : LineCalculation) (k : Nat) :
    (split_action lc k).more_marker = none := rfl

theorem decide_break_splitAt_type (cfg : PageConfig) (e : Element)
    (lines : LineCalculation) (tn rem : Nat) (up : List Element) (k : Nat)
    (h : decide_break cfg e lines tn rem up = BreakDecision.splitAt k) :
    e.element_type = ElementType.dialogue ∨ e.element_type = ElementType.action := by
  unfold decide_break at h
  by_cases hfit : tn ≤ rem
  · rw [if_pos hfit] at h
    dsimp only at h
    split at h
    · split at h <;> simp at h
    · simp at h
  · rw [if_neg hfit] at h
    dsimp only at h
    cases htype : e.element_type <;> rw [htype] at h <;> simp_all

theorem ledgerStep_first (cfg : PageConfig) (P : List Element) (idv : String)
    (acc act f : Nat) (hacc : acc < 256) (hact : act < 256) :
    ledgerStep cfg P acc
      { element_id := idv, start_line := (acc + act + 1) % 256,
        line_count := f % 256, is_continuation := false,
        line_range := some { start := 0, stop := f },
        continuation_label := none } = (acc + act + f % 256) % 256 := by
  unfold ledgerStep placeShare reconSpace
  dsimp only
  omega

theorem ledgerFold_second (cfg : PageConfig) (P : List Element) (idv : String)
    (f snd : Nat) (cl : Option (List Char)) :
    ledgerFold cfg P
      [{ element_id := idv, start_line := 1 + (if cl.isSome then 1 else 0),
         line_count := snd % 256, is_continuation := true,
         line_range := some { start := f, stop := f + snd },
         continuation_label := cl }] 0 =
      ((if cl.isSome then 1 else 0) + snd % 256) % 256 := by
  show ledgerStep cfg P 0 _ = _
  unfold ledgerStep placeShare reconSpace
  dsimp only
  by_cases hcl : cl.isSome = true <;> simp only [hcl, if_true, if_false] <;> omega

theorem heavyOk_split_core (cfg : PageConfig) (P : List Element) (e : Element)
    (s : PaginationState) (f snd actualv extra lu1v ccv : Nat)
    (bc1v cl : Option (List Char)) (posv : List (String × ElementPosition))
    (hfind : findElem P e.id = some e)
    (hsum : f + snd = (calculate cfg e).content_lines)
    (hfst : 0 < f) (hsnd : 0 < snd)
    (htype : e.element_type = ElementType.dialogue ∨
      e.element_type = ElementType.action)
    (hbc : bc1v.isSome = true ↔
      (cfg.continuation_style.enabled = true ∧
        e.element_type = ElementType.dialogue))
    (hlu1 : lu1v = ((s.current_page.lines_used + actualv + f % 256) % 256 +
      (if bc1v.isSome = true then 1 else 0)) % 256)
    (hextra : extra ≤ 1) (hactv : actualv < 256)
    (h : HeavyOk cfg P s) :
    HeavyOk cfg P
      { pages := s.pages ++
          [{ identifier := s.current_page.identifier,
             elements := s.current_page.elements ++
               [{ element_id := e.id,
                  start_line := (s.current_page.lines_used + actualv + 1) % 256,
                  line_count := f % 256, is_continuation := false,
                  line_range := some { start := 0, stop := f },
                  continuation_label := none }],
             bottom_continuation := bc1v, lines_used := lu1v }]
        current_page :=
          { identifier := PageIdentifier.sequential (s.page_number + 1)
            elements :=
              [{ element_id := e.id, start_line := 1 + extra,
                 line_count := snd % 256, is_continuation := true,
                 line_range := some { start := f, stop := f + snd },
                 continuation_label := cl }]
            bottom_continuation := none
            lines_used := (extra + snd % 256) % 256 }
        page_number := s.page_number + 1
        element_positions := posv
        warnings := s.warnings
        break_count := s.break_count + 1
        continuation_count := ccv } := by
  have hl : s.current_page.lines_used < 256 := heavyOk_lines_used_lt cfg P s h
  have hltN : f < (calculate cfg e).content_lines := by omega
  set pe1 : PageElement :=
    { element_id := e.id,
      start_line := (s.current_page.lines_used + actualv + 1) % 256,
      line_count := f % 256, is_continuation := false,
      line_range := some { start := 0, stop := f },
      continuation_label := none } with hpe1
  set pe2 : PageElement :=
    { element_id := e.id, start_line := 1 + extra, line_count := snd % 256,
      is_continuation := true,
      line_range := some { start := f, stop := f + snd },
      continuation_label := cl } with hpe2
  set page1 : Page :=
    { identifier := s.current_page.identifier,
      elements := s.current_page.elements ++ [pe1],
      bottom_continuation := bc1v, lines_used := lu1v } with hpage1
  set cur2 : Page :=
    { identifier := PageIdentifier.sequential (s.page_number + 1)
      elements := [pe2]
      bottom_continuation := none
      lines_used := (extra + snd % 256) % 256 } with hcur2
  have hAB : pagesLe (s.pages ++ [s.current_page])
      ((s.pages ++ [page1]) ++ [cur2]) := by
    intro pg hpg
    rcases List.mem_append.mp hpg with hpg | hpg
    · exact ⟨pg, by simp [hpg], fun x hx => hx⟩
    · rcases List.mem_singleton.mp hpg with rfl
      refine ⟨page1, by simp, ?_⟩
      intro x hx
      rw [hpage1]
      exact List.mem_append.mpr (Or.inl hx)
  refine ⟨rfl, ?_, ?_, ?_, ?_, ?_⟩
  · show (extra + snd % 256) % 256 = ledgerFold cfg P [pe2] 0
    show (extra + snd % 256) % 256 = ledgerStep cfg P 0 pe2
    unfold ledgerStep placeShare reconSpace
    rw [hpe2]
    dsimp only
    omega
  · intro pg hpg
    rcases List.mem_append.mp hpg with hpg | hpg
    · exact h.pagesLedger pg hpg
    · rcases List.mem_singleton.mp hpg with rfl
      show lu1v = (ledgerFold cfg P (s.current_page.elements ++ [pe1]) 0 + _) % 256
      rw [ledgerFold_append, ← h.currLedger, hpe1,
        ledgerStep_first cfg P e.id s.current_page.lines_used actualv f hl hactv]
      exact hlu1
  · intro pe hpe r hr
    rcases List.mem_singleton.mp hpe with rfl
    rfl
  · intro pg hpg pe hpe
    have hmem : pg ∈ (s.pages ++ [page1]) ++ [cur2] := hpg
    rcases List.mem_append.mp hmem with hmem | hmem
    · rcases List.mem_append.mp hmem with hmem | hmem
      · exact placementOk_mono cfg P P _ _ pe (fun k e1 hk => hk) hAB
          (h.placOk pg (by simp [hmem]) pe hpe)
      · rcases List.mem_singleton.mp hmem with rfl
        rw [hpage1] at hpe
        rcases List.mem_append.mp hpe with hpe | hpe
        · exact placementOk_mono cfg P P _ _ pe (fun k e1 hk => hk) hAB
            (h.placOk s.current_page (by simp) pe hpe)
        · rcases List.mem_singleton.mp hpe with rfl
          refine ⟨e, hfind, ?_⟩
          show (0 : Nat) = 0 ∧ 0 < f ∧ f < (calculate cfg e).content_lines ∧
            f % 256 = f % 256 ∧ _ ∧ _
          refine ⟨rfl, hfst, hltN, rfl, htype, cur2, by simp, pe2, by simp, rfl, rfl, ?_⟩
          rw [hpe2]
          dsimp only
          rw [hsum]
    · rcases List.mem_singleton.mp hmem with rfl
      rw [hcur2] at hpe
      rcases List.mem_singleton.mp hpe with rfl
      refine ⟨e, hfind, ?_⟩
      show f + snd = (calculate cfg e).content_lines ∧ f < f + snd ∧
        snd % 256 = (f + snd - f) % 256 ∧ _
      refine ⟨hsum, by omega, by omega, page1, by simp, pe1, ?_, rfl, rfl, rfl⟩
      rw [hpage1]
      simp
  · intro pg hpg
    rcases List.mem_append.mp hpg with hpg | hpg
    · exact h.bottomOk pg hpg
    · rcases List.mem_singleton.mp hpg with rfl
      unfold pageBottomOk lastPlacementDialogueSplit
      constructor
      · intro hb
        rcases hbc.mp hb with ⟨hen, hdia⟩
        refine ⟨hen, pe1, ?_, { start := 0, stop := f }, rfl, e, hfind, hdia, hltN⟩
        rw [hpage1]
        simp
      · rintro ⟨hen, pe, hlast, rr, hr, e1, he1, htype1, hlt1⟩
        have hpe : pe = pe1 := by
          rw [hpage1] at hlast
          simp at hlast
          exact hlast.symm
        subst hpe
        have he1e : e1 = e := by
          rw [hpe1] at he1
          dsimp only at he1
          rw [hfind] at he1
          exact (Option.some_injective _ he1).symm
        subst he1e
        exact hbc.mpr ⟨hen, htype1⟩

theorem heavyOk_split (cfg : PageConfig) (P : List Element) (e : Element)
    (s : PaginationState) (sp : SplitResult)
    (hcfg : ConfigOk cfg) (hfind : findElem P e.id = some e)
    (hsum : sp.first_part_lines + sp.second_part_lines =
      (calculate cfg e).content_lines)
    (hfst : 0 < sp.first_part_lines) (hsnd : 0 < sp.second_part_lines)
    (htype : e.element_type = ElementType.dialogue ∨
      e.element_type = ElementType.action)
    (hmore : sp.more_marker.isSome = true ↔
      (cfg.continuation_style.enabled = true ∧
        e.element_type = ElementType.dialogue))
    (h : HeavyOk cfg P s) (p1 p2 : PageIdentifier) (sl el : Nat) :
    HeavyOk cfg P
      ((((s.add_split_element_first_part e sp.first_part_lines sp.more_marker
              s.at_page_start (calculate cfg e).space_before).end_page
            PageBreakReason.dialogueContinuation).add_split_element_second_part e
          sp.first_part_lines sp.second_part_lines
          sp.contd_label).record_split_position e.id p1 p2 sl el) := by
  have hact : (if s.at_page_start = true then 0
      else (calculate cfg e).space_before) < 256 := by
    by_cases hb : s.at_page_start = true
    · simp [hb]
    · simp only [hb, if_false, Bool.false_eq_true, calculate_space_before]
      exact hcfg e.element_type
  have hextra : (if sp.contd_label.isSome then 1 else 0) ≤ 1 := by
    split <;> omega
  cases hmm : sp.more_marker with
  | some m =>
      refine heavyOk_split_core cfg P e s sp.first_part_lines sp.second_part_lines
        _ _ _ _ (some m) sp.contd_label _ hfind hsum hfst hsnd htype ?_ ?_
        hextra hact h
      · rw [hmm] at hmore
        simpa using hmore
      · simp only [Option.isSome_some, if_true]
        omega
  | none =>
      refine heavyOk_split_core cfg P e s sp.first_part_lines sp.second_part_lines
        _ _ _ _ s.current_page.bottom_continuation sp.contd_label _ hfind hsum
        hfst hsnd htype ?_ ?_ hextra hact h
      · rw [h.currBottom]
        rw [hmm] at hmore
        simp only [Option.isSome_none, Bool.false_eq_true, false_iff] at hmore
        simpa using hmore
      · rw [h.currBottom]
        simp only [Option.isSome_none, Bool.false_eq_true, if_false]
        omega

theorem heavyOk_add_warning (cfg : PageConfig) (P : List Element)
    (s : PaginationState) (eid : Option String) (wt : WarningType) (msg : List Char)
    (h : HeavyOk cfg P s) : HeavyOk cfg P (s.add_warning eid wt msg) :=
  ⟨h.currBottom, h.currLedger, h.pagesLedger, h.currNoFirst, h.placOk, h.bottomOk⟩

theorem heavyOk_applyDecision (cfg : PageConfig) (P : List Element) (e : Element)
    (s : PaginationState) (d : BreakDecision) (sb : Nat) (hcfg : ConfigOk cfg)
    (hfind : findElem P e.id = some e)
    (htype : ∀ k, d = BreakDecision.splitAt k →
      e.element_type = ElementType.dialogue ∨ e.element_type = ElementType.action)
    (h : HeavyOk cfg P s) :
    HeavyOk cfg P (applyDecision cfg e (calculate cfg e) sb s d) := by
  cases d with
  | fits => exact heavyOk_add_element cfg P e s s.at_page_start hcfg hfind h
  | breakBefore =>
      unfold applyDecision
      dsimp only
      by_cases hst : s.at_page_start = true
      · rw [if_pos hst]
        exact heavyOk_add_element cfg P e s true hcfg hfind h
      · rw [if_neg hst]
        exact heavyOk_add_element cfg P e _ true hcfg hfind
          (heavyOk_end_page cfg P s _ h)
  | splitAt line =>
      unfold applyDecision
      dsimp only
      have htype2 := htype line rfl
      by_cases hdia : e.element_type = ElementType.dialogue
      · rw [if_pos hdia]
        split
        · next hvalid =>
            have hsum := split_dialogue_parts cfg e (calculate cfg e) line
            rw [← calculate_content] at hsum
            refine heavyOk_split cfg P e s _ hcfg hfind hsum hvalid.1 hvalid.2
              htype2 ?_ h _ _ _ _
            rw [split_dialogue_more_isSome cfg e (calculate cfg e) line hvalid.2]
            constructor
            · exact fun hen => ⟨hen, hdia⟩
            · exact fun hh => hh.1
        · by_cases hst : s.at_page_start = true
          · rw [if_pos hst]
            exact heavyOk_add_element cfg P e s true hcfg hfind h
          · rw [if_neg hst]
            exact heavyOk_add_element cfg P e _ true hcfg hfind
              (heavyOk_end_page cfg P s _ h)
      · rw [if_neg hdia]
        split
        · next hvalid =>
            have hsum := split_action_parts (calculate cfg e) line
            rw [← calculate_content] at hsum
            refine heavyOk_split cfg P e s _ hcfg hfind hsum hvalid.1 hvalid.2
              htype2 ?_ h _ _ _ _
            rw [split_action_more]
            simp [hdia]
        · by_cases hst : s.at_page_start = true
          · rw [if_pos hst]
            exact heavyOk_add_element cfg P e s true hcfg hfind h
          · rw [if_neg hst]
            exact heavyOk_add_element cfg P e _ true hcfg hfind
              (heavyOk_end_page cfg P s _ h)

theorem heavyOk_step (cfg : PageConfig) (P : List Element) (e : Element)
    (rest : List Element) (s : PaginationState) (hcfg : ConfigOk cfg)
    (hnotin : e.id ∉ P.map Element.id) (h : HeavyOk cfg P s) :
    HeavyOk cfg (P ++ [e]) (stepElem cfg e rest s) := by
  have h2 := heavyOk_extend cfg P e s h
  have hfind := findElem_append_self P e hnotin
  unfold stepElem
  by_cases hpb : e.element_type = ElementType.pageBreak
  · rw [if_pos hpb]
    by_cases hst : s.at_page_start = true
    · rw [if_pos hst]
      exact h2
    · rw [if_neg hst]
      exact heavyOk_end_page cfg (P ++ [e]) s _ h2
  · rw [if_neg hpb]
    dsimp only
    have h3 := heavyOk_applyDecision cfg (P ++ [e]) e s
      (decide_break cfg e (calculate cfg e)
        ((if s.at_page_start then 0 else (calculate cfg e).space_before) +
          (calculate cfg e).total_lines)
        (s.lines_remaining cfg.lines_per_page) (e :: rest))
      (if s.at_page_start then 0 else (calculate cfg e).space_before) hcfg hfind
      (fun k hk => decide_break_splitAt_type cfg e (calculate cfg e) _ _ _ k hk) h2
    revert h3
    generalize applyDecision cfg e (calculate cfg e)
      (if s.at_page_start then 0 else (calculate cfg e).space_before) s
      (decide_break cfg e (calculate cfg e)
        ((if s.at_page_start then 0 else (calculate cfg e).space_before) +
          (calculate cfg e).total_lines)
        (s.lines_remaining cfg.lines_per_page) (e :: rest)) = s1
    intro h3
    have h4 : HeavyOk cfg (P ++ [e])
        (if e.force_page_break_after = true ∧ ¬ s1.at_page_start = true then
          s1.end_page PageBreakReason.forced else s1) := by
      split
      · exact heavyOk_end_page cfg (P ++ [e]) s1 _ h3
      · exact h3
    split
    · exact heavyOk_add_warning cfg (P ++ [e]) _ _ _ _ h4
    · exact h4

theorem heavyOk_run (cfg : PageConfig) (hcfg : ConfigOk cfg) :
    ∀ (l P : List Element) (s : PaginationState),
      ((P ++ l).map Element.id).Nodup → HeavyOk cfg P s →
      HeavyOk cfg (P ++ l) (runElems cfg l s)
  | [], P, s, _, h => by simpa using h
  | e :: rest, P, s, hn, h => by
      have hassoc : P ++ e :: rest = (P ++ [e]) ++ rest := by simp
      have hnotin : e.id ∉ P.map Element.id := by
        intro hmem
        rw [List.map_append] at hn
        rcases List.nodup_append.mp hn with ⟨_, _, hdisj⟩
        exact hdisj hmem (by simp)
      have h1 := heavyOk_step cfg P e rest s hcfg hnotin h
      have h2 := heavyOk_run cfg hcfg rest (P ++ [e]) _ (by rw [← hassoc]; exact hn) h1
      simpa [List.append_assoc] using h2

theorem heavyOk_paginate (elements : List Element) (cfg : PageConfig)
    (hcfg : ConfigOk cfg) (hn : (elements.map Element.id).Nodup) :
    HeavyOk cfg elements (runElems cfg elements PaginationState.new) := by
  simpa using heavyOk_run cfg hcfg elements [] PaginationState.new (by simpa using hn)
    (heavyOk_init cfg)

theorem heavyOk_curr_bottom (cfg : PageConfig) (P : List Element)
    (s : PaginationState) (h : HeavyOk cfg P s) :
    pageBottomOk cfg P s.current_page := by
  unfold pageBottomOk lastPlacementDialogueSplit
  constructor
  · intro hb
    rw [h.currBottom] at hb
    simp at hb
  · rintro ⟨hen, pe, hlast, rr, hr, e, he, htype, hlt⟩
    exfalso
    have hpe_mem := mem_of_getLast?_eq _ _ hlast
    have hcont := h.currNoFirst pe hpe_mem rr hr
    rcases h.placOk s.current_page (by simp) pe hpe_mem with ⟨e1, he1, hrest⟩
    simp only [hr, hcont] at hrest
    have he1e : e1 = e := by
      rw [he1] at he
      exact Option.some_injective _ he
    subst he1e
    obtain ⟨hstop, _, _, _⟩ := hrest
    omega

theorem final_pages_sub (elements : List Element) (cfg : PageConfig) (t : Nat) :
    ∀ pg ∈ (paginate elements cfg t).pages,
      pg ∈ (runElems cfg elements PaginationState.new).pages ++
        [(runElems cfg elements PaginationState.new).current_page] := by
  intro pg hpg
  unfold paginate at hpg
  rw [finalize_pages] at hpg
  by_cases hcur :
      (runElems cfg elements PaginationState.new).current_page.elements.isEmpty
  · rw [if_pos hcur] at hpg
    exact List.mem_append.mpr (Or.inl hpg)
  · rw [if_neg hcur] at hpg
    exact hpg

theorem allPgs_to_final (elements : List Element) (cfg : PageConfig) (t : Nat)
    (pg : Page)
    (hpg : pg ∈ (runElems cfg elements PaginationState.new).pages ++
      [(runElems cfg elements PaginationState.new).current_page])
    (pe : PageElement) (hpe : pe ∈ pg.elements) :
    pg ∈ (paginate elements cfg t).pages := by
  unfold paginate
  rw [finalize_pages]
  rcases List.mem_append.mp hpg with hpg | hpg
  · by_cases hcur :
        (runElems cfg elements PaginationState.new).current_page.elements.isEmpty
    · rw [if_pos hcur]
      exact hpg
    · rw [if_neg hcur]
      exact List.mem_append.mpr (Or.inl hpg)
  · have hne : ¬ pg.elements.isEmpty = true := by
      simp only [List.isEmpty_iff]
      intro hh
      rw [hh] at hpe
      simp at hpe
    rcases List.mem_singleton.mp hpg with rfl
    rw [if_neg hne]
    exact List.mem_append.mpr (Or.inr (by simp))

/-- C3 (amended): for every page P of the result, `P.lines_used` equals
mod 256 (it is a `u8` counter) the sum over P's placements of the
space-before consumed by the placement (recovered from its recorded
`start_line`) plus the placement's total-lines share — the length of
its line range for a split placement and its element's `total_lines`
(line-spacing-adjusted content plus `space_after`) for an unsplit one —
plus 1 if `bottom_continuation` is set.  The claim's version (recorded
`line_count` instead of the total-lines share) fails whenever a style
has `space_after > 0` or `line_spacing > 1`, e.g. for Transition. -/
theorem c3_amended (elements : List Element) (cfg : PageConfig) (t : Nat)
    (hcfg : ConfigOk cfg) (hn : (elements.map Element.id).Nodup) :
    ∀ pg ∈ (paginate elements cfg t).pages,
      pg.lines_used = (ledgerFold cfg elements pg.elements 0 +
        (if pg.bottom_continuation.isSome then 1 else 0)) % 256 := by
  intro pg hpg
  have hh := heavyOk_paginate elements cfg hcfg hn
  have hmem := final_pages_sub elements cfg t pg hpg
  rcases List.mem_append.mp hmem with hmem | hmem
  · exact hh.pagesLedger pg hmem
  · rcases List.mem_singleton.mp hmem with rfl
    rw [hh.currLedger, hh.currBottom]
    have := ledgerFold_lt cfg elements
      (runElems cfg elements PaginationState.new).current_page.elements 0 (by omega)
    simp only [Option.isSome_none, Bool.false_eq_true, if_false]
    omega

/-- C8 (amended): a page has a non-null `bottom_continuation` iff
continuation markers are enabled AND its final placement has a line
range whose end lies strictly before the original element's
content-lines AND that element is a Dialogue — whether or not it
carried a `character_name` (the code conditions the MORE marker only on
`continuation_style.enabled` and a non-empty second half, and a split
with continuation disabled sets no marker). -/
theorem c8_amended (elements : List Element) (cfg : PageConfig) (t : Nat)
    (hcfg : ConfigOk cfg) (hn : (elements.map Element.id).Nodup) :
    ∀ pg ∈ (paginate elements cfg t).pages,
      (pg.bottom_continuation.isSome = true ↔
        (cfg.continuation_style.enabled = true ∧
          ∃ pe, pg.elements.getLast? = some pe ∧ ∃ r, pe.line_range = some r ∧
            ∃ e, findElem elements pe.element_id = some e ∧
              e.element_type = ElementType.dialogue ∧
              r.stop < (calculate cfg e).content_lines)) := by
  intro pg hpg
  have hh := heavyOk_paginate elements cfg hcfg hn
  have hmem := final_pages_sub elements cfg t pg hpg
  rcases List.mem_append.mp hmem with hmem | hmem
  · exact hh.bottomOk pg hmem
  · rcases List.mem_singleton.mp hmem with rfl
    exact heavyOk_curr_bottom cfg elements _ hh

/-- C4 (amended): for every split placement, the `u32` `LineRange`s of
the two recorded placements are exactly `[0, first)` and
`[first, first + second)` with `first + second = content_lines` — no
overlap or gap — and each half's recorded `line_count` is its half's
line count reduced mod 256 (the field is a `u8`), so the two
line_counts sum to `content_lines` only when both halves are below 256
(not for elements with more than 255 lines in a half, where the sum
only agrees mod 256). -/
theorem c4_amended (elements : List Element) (cfg : PageConfig) (t : Nat)
    (hcfg : ConfigOk cfg) (hn : (elements.map Element.id).Nodup) :
    ∀ pg ∈ (paginate elements cfg t).pages, ∀ pe ∈ pg.elements, ∀ r : LineRange,
      pe.line_range = some r →
      ∃ e, findElem elements pe.element_id = some e ∧
        ((pe.is_continuation = false →
          r.start = 0 ∧ 0 < r.stop ∧ r.stop < (calculate cfg e).content_lines ∧
          pe.line_count = r.stop % 256 ∧
          ∃ pg2 ∈ (paginate elements cfg t).pages, ∃ pe2 ∈ pg2.elements,
            pe2.element_id = pe.element_id ∧ pe2.is_continuation = true ∧
            pe2.line_range =
              some { start := r.stop, stop := (calculate cfg e).content_lines } ∧
            pe2.line_count = ((calculate cfg e).content_lines - r.stop) % 256) ∧
         (pe.is_continuation = true →
          r.stop = (calculate cfg e).content_lines ∧ r.start < r.stop ∧
          pe.line_count = (r.stop - r.start) % 256 ∧
          ∃ pg2 ∈ (paginate elements cfg t).pages, ∃ pe2 ∈ pg2.elements,
            pe2.element_id = pe.element_id ∧ pe2.is_continuation = false ∧
            pe2.line_range = some { start := 0, stop := r.start } ∧
            pe2.line_count = r.start % 256)) := by
  intro pg hpg pe hpe r hr
  have hh := heavyOk_paginate elements cfg hcfg hn
  have hmem := final_pages_sub elements cfg t pg hpg
  rcases hh.placOk pg hmem pe hpe with ⟨e, he, hrest⟩
  refine ⟨e, he, ?_, ?_⟩
  · intro hcont
    simp only [hr, hcont] at hrest
    obtain ⟨h1, h2, h3, h4, _, pg2, hpg2, pe2, hpe2, hid, hcont2, hrange2⟩ := hrest
    refine ⟨h1, h2, h3, h4, pg2, allPgs_to_final elements cfg t pg2 hpg2 pe2 hpe2,
      pe2, hpe2, hid, hcont2, hrange2, ?_⟩
    rcases hh.placOk pg2 hpg2 pe2 hpe2 with ⟨e2, he2, hrest2⟩
    have he2e : e2 = e := by
      rw [hid] at he2
      rw [he] at he2
      exact Option.some_injective _ he2.symm
    subst he2e
    simp only [hrange2, hcont2] at hrest2
    obtain ⟨_, _, hlc, _⟩ := hrest2
    simpa using hlc
  · intro hcont
    simp only [hr, hcont] at hrest
    obtain ⟨h1, h2, h3, pg2, hpg2, pe2, hpe2, hid, hcont2, hrange2⟩ := hrest
    refine ⟨h1, h2, h3, pg2, allPgs_to_final elements cfg t pg2 hpg2 pe2 hpe2,
      pe2, hpe2, hid, hcont2, hrange2, ?_⟩
    rcases hh.placOk pg2 hpg2 pe2 hpe2 with ⟨e2, he2, hrest2⟩
    have he2e : e2 = e := by
      rw [hid] at he2
      rw [he] at he2
      exact Option.some_injective _ he2.symm
    subst he2e
    simp only [hrange2, hcont2] at hrest2
    obtain ⟨_, _, _, hlc, _, _⟩ := hrest2
    simpa using hlc

/-- C3 witness: the amended ledger equation holds at the single-page
Transition run. -/
theorem c3_witness :
    ((paginate [exTransition] feature_film 0).pages.getD 0
        (Page.new (PageIdentifier.sequential 99))).lines_used =
      (ledgerFold feature_film [exTransition]
          ((paginate [exTransition] feature_film 0).pages.getD 0
            (Page.new (PageIdentifier.sequential 99))).elements 0 +
        (if ((paginate [exTransition] feature_film 0).pages.getD 0
              (Page.new (PageIdentifier.sequential 99))).bottom_continuation.isSome
          then 1 else 0)) % 256 := by
  have hb : 0 < (paginate [exTransition] feature_film 0).pages.length := by decide
  rw [List.getD_eq_getElem _ _ hb]
  exact c3_amended [exTransition] feature_film 0 (by decide) (by decide) _
    (List.getElem_mem hb)

/-- C8 witness: the amended coherence iff instantiated at the first page
of a named-dialogue split run. -/
theorem c8_witness :
    ((paginate [exDialogue8Named] cfgSmall 0).pages.getD 0
        (Page.new (PageIdentifier.sequential 99))).bottom_continuation.isSome = true ↔
      (cfgSmall.continuation_style.enabled = true ∧
        ∃ pe, ((paginate [exDialogue8Named] cfgSmall 0).pages.getD 0
            (Page.new (PageIdentifier.sequential 99))).elements.getLast? = some pe ∧
          ∃ r, pe.line_range = some r ∧
            ∃ e, findElem [exDialogue8Named] pe.element_id = some e ∧
              e.element_type = ElementType.dialogue ∧
              r.stop < (calculate cfgSmall e).content_lines) := by
  have hb : 0 < (paginate [exDialogue8Named] cfgSmall 0).pages.length := by decide
  rw [List.getD_eq_getElem _ _ hb]
  exact c8_amended [exDialogue8Named] cfgSmall 0 (by decide) (by decide) _
    (List.getElem_mem hb)

/-- The first placement of the first page of the `exDialogue8` run. -/
def c4FirstPE : PageElement :=
  ((paginate [exDialogue8] cfgSmall 0).pages.getD 0
    (Page.new (PageIdentifier.sequential 99))).elements.getD 0
    { element_id := "", start_line := 0, line_count := 0, is_continuation := false,
      line_range := none, continuation_label := none }

/-- C4 witness: from the first half `[0, 4)` of the split dialogue run,
the amended theorem produces the matching second half `[4, 8)` with
line_count `(8 - 4) % 256`. -/
theorem c4_witness :
    ∃ pg2 ∈ (paginate [exDialogue8] cfgSmall 0).pages, ∃ pe2 ∈ pg2.elements,
      pe2.element_id = c4FirstPE.element_id ∧ pe2.is_continuation = true ∧
      pe2.line_range = some { start := 4, stop := 8 } ∧
      pe2.line_count = (8 - 4) % 256 := by
  have hb : 0 < (paginate [exDialogue8] cfgSmall 0).pages.length := by decide
  have hbe : 0 < ((paginate [exDialogue8] cfgSmall 0).pages.getD 0
      (Page.new (PageIdentifier.sequential 99))).elements.length := by decide
  have h := c4_amended [exDialogue8] cfgSmall 0 (by decide) (by decide)
    ((paginate [exDialogue8] cfgSmall 0).pages.getD 0
      (Page.new (PageIdentifier.sequential 99)))
    (by rw [List.getD_eq_getElem _ _ hb]; exact List.getElem_mem hb)
    c4FirstPE
    (by
      show c4FirstPE ∈ _
      unfold c4FirstPE
      rw [List.getD_eq_getElem _ _ hbe]
      exact List.getElem_mem hbe)
    { start := 0, stop := 4 } (by decide)
  rcases h with ⟨e, hfind, h1, _⟩
  have hinst := h1 (by decide)
  obtain ⟨_, _, _, _, pg2, hpg2, pe2, hpe2, hid, hcont2, hrange2, hlc2⟩ := hinst
  have hee : e = exDialogue8 := by
    have h0 : findElem [exDialogue8] c4FirstPE.element_id = some exDialogue8 := by decide
    rw [h0] at hfind
    exact (Option.some_injective _ hfind).symm
  subst hee
  have hN : (calculate cfgSmall exDialogue8).content_lines = 8 := by decide
  rw [hN] at hrange2 hlc2
  exact ⟨pg2, hpg2, pe2, hpe2, hid, hcont2, hrange2, by simpa using hlc2⟩


end VersoPagination
